import Mathlib

/-!
Verification development for the Kabo card-game round engine.

The definitions below are a shallow embedding of the Python sources
`src/card.py`, `src/deck.py`, `src/discard_pile.py`, `src/player.py`,
`src/round.py`, `src/rules.py` and `src/game.py` of the Kabo repository.

Modelling conventions:
* Python lists used as stacks (`Deck.cards`, `DiscardPile.cards`) pop and
  push at the END of the list; the Lean lists below keep the TOP of the
  stack at the HEAD, so Python `lst.pop()` is a head-match and
  `lst.append(c)` on the discard pile is `c :: pile`.
* Python `Card` objects are compared by identity; every card carries a
  unique incremental `id`, so object identity is modelled as equality of
  the `id` field.
* Python `Player.__eq__` compares `player_id` and `name`; this is `peqB`.
* A hand is a `List (Option Card)`: the engine writes `None` into hand
  slots during a multi-card exchange, so a slot is `none` exactly when
  the Python hand holds `None` at that position.
* Python exceptions (`IndexError`, `ValueError`, `KeyError`,
  `AttributeError`, `RecursionError`) are modelled as `Except.error` or,
  for the scoring functions, as `Option.none`.
* The `Card.owner` back pointer and the pygame image field are omitted:
  no operation modelled here ever reads them.
* Random shuffling is modelled by quantifying over the post-shuffle deck
  order, and the blocking decision-interface calls (`pick_turn_type`,
  `decide_on_card_use`, ...) are modelled by a `TurnDecisions` record of
  the values those calls return.
-/

namespace Kabo

/-- Constants from `config/rules.py`. -/
def TARGET_POINT_VALUE : Nat := 100

def POINT_VALUE_AFTER_HITTING_TARGET : Nat := 50

def CARDS_PER_PLAYER : Nat := 4

def NUMBER_OF_CARDS_TO_SEE : Nat := 2

def KABO_MALUS : Nat := 10

def NUMBER_OF_CARDS_FOR_KAMIKADZE : List Nat := [4]

def KAMIKADZE_VALUES : List (Nat × Nat) := [(12, 2), (13, 2)]

def KAMIKADZE_PENALTY : Nat := 50

def NUM_KINDS_FOR_MULTIPLE_DISCARD : Nat := 1

def ALLOWED_PLAYS : List String := ["KABO", "HIT_DECK", "HIT_DISCARD_PILE"]

def MAIN_DECK_CARD_DECISIONS : List String := ["KEEP", "DISCARD", "EFFECT"]

/-- The `CARD_AMOUNTS` table of `rules.py`: how many copies of each value
exist in the game (values 0 and 13 have two copies, the rest four). -/
def CARD_AMOUNTS : List (Nat × Nat) :=
  [(0, 2), (1, 4), (2, 4), (3, 4), (4, 4), (5, 4), (6, 4), (7, 4),
   (8, 4), (9, 4), (10, 4), (11, 4), (12, 4), (13, 2)]

/-- The `CARD_EFFECTS` dict of `rules.py` (`dict.get`, `None` when the key
is absent).  The Czech effect names ŠPION and KŠEFT are transliterated to
ASCII `SPION` / `KSEFT`. -/
def CARD_EFFECTS (value : Nat) : Option String :=
  if value == 7 ∨ value == 8 then some "KUK"
  else if value == 9 ∨ value == 10 then some "SPION"
  else if value == 11 ∨ value == 12 then some "KSEFT"
  else none

/-- The mutable state of a Python `Card` object (`card.py`).
`known_to_other_players` stores the `player_id`s of the players that
spied the card (the Python list stores `Player` objects compared by
`Player.__eq__`). -/
structure Card where
  value : Nat
  id : Nat
  effect : Option String
  publicly_visible : Bool
  known_to_owner : Bool
  known_to_other_players : List Nat
  status : String
  deriving Repr, DecidableEq

/-- `Card.__init__`: a fresh card in the main deck. -/
def mkCard (value id : Nat) : Card :=
  { value := value, id := id, effect := CARD_EFFECTS value,
    publicly_visible := false, known_to_owner := false,
    known_to_other_players := [], status := "MAIN_DECK" }

/-- The `CARDS` list built in `Game._init_round`:
`[Card(value) for value, amount in CARD_AMOUNTS.items() for i in range(amount)]`,
with incremental ids. -/
def cardValues : List Nat :=
  (CARD_AMOUNTS.map (fun va => List.replicate va.2 va.1)).flatten

/-- The 52 cards of a fresh round, with incremental ids `0, 1, ...`. -/
def CARDS : List Card :=
  ((List.range cardValues.length).zip cardValues).map (fun p => mkCard p.2 p.1)

/-- `Card.check_card_list_consistency`: all cards in the list must share
one value (the Python code counts the distinct values with a `Counter`
and compares against `NUM_KINDS_FOR_MULTIPLE_DISCARD = 1`). -/
def check_card_list_consistency (cards : List Card) : Bool :=
  if ((cards.map (fun c => c.value)).dedup).length > NUM_KINDS_FOR_MULTIPLE_DISCARD
  then false else true

/-- The mutable state of a Python `Player` object (`player.py`), without
the bound decision-interface methods (those are modelled by
`TurnDecisions`). -/
structure PlayerSt where
  player_id : Nat
  name : String
  hand : List (Option Card)
  called_kabo : Bool
  players_game_score : Nat
  matched_100 : Bool
  deriving Repr, DecidableEq

/-- `Player.__eq__`: two players are equal when both `player_id` and
`name` agree. -/
def peqB (a b : PlayerSt) : Bool :=
  a.player_id == b.player_id && a.name == b.name

/-- A placeholder player used to totalise list indexing; every theorem
below carries the bounds hypotheses that make it irrelevant. -/
def dummyPlayer : PlayerSt :=
  { player_id := 0, name := "", hand := [], called_kabo := false,
    players_game_score := 0, matched_100 := false }

instance : Inhabited PlayerSt := ⟨dummyPlayer⟩

/-- Python object identity test `card in hand` (a hand may hold `None`
entries, which are never identical to a card). -/
def cardInHand (hand : List (Option Card)) (c : Card) : Bool :=
  hand.any (fun s => match s with
    | some d => d.id == c.id
    | none => false)

/-- `Player.check_knowledge_of_card`: if the card is in the player's own
hand return the card's `known_to_owner` flag, otherwise test whether the
player is in the card's `known_to_other_players` list. -/
def check_knowledge_of_card (p : PlayerSt) (c : Card) : Bool :=
  if cardInHand p.hand c then c.known_to_owner
  else c.known_to_other_players.contains p.player_id

/-- The state of a `Round` that the turn machinery reads and writes:
main deck, discard pile (top of each stack at the list head), the
`kabo_called` flag and the (rotated) list of players. -/
structure EngineSt where
  main_deck : List Card
  discard_pile : List Card
  kabo_called : Bool
  players : List PlayerSt
  deriving Repr, DecidableEq

/-- List update at an index (identity when the index is out of range),
mirroring Python item assignment on a list that is known to be long
enough. -/
def listModify {α : Type} : List α → Nat → (α → α) → List α
  | [], _, _ => []
  | a :: l, 0, f => f a :: l
  | a :: l, i + 1, f => a :: listModify l i f

/-- Read player number `i` of the round. -/
def getPlayer (st : EngineSt) (i : Nat) : PlayerSt :=
  st.players.getD i dummyPlayer

/-- Update player number `i` of the round. -/
def modifyPlayer (st : EngineSt) (i : Nat) (f : PlayerSt → PlayerSt) : EngineSt :=
  { st with players := listModify st.players i f }

/-- `Round.discard_card`: set the card's status, make it publicly
visible, and push it on top of the discard pile. -/
def discard_card (st : EngineSt) (c : Card) : EngineSt :=
  { st with discard_pile :=
      { c with status := "DISCARD_PILE", publicly_visible := true } :: st.discard_pile }

/-- The cards actually present in a hand (`None` holes dropped). -/
def handCards (hand : List (Option Card)) : List Card :=
  hand.filterMap id

/-- Number of cards in a hand, not counting `None` holes. -/
def handCount (hand : List (Option Card)) : Nat :=
  (handCards hand).length

/-- Total number of cards on the table: main deck, all hands (holes not
counted) and discard pile. -/
def cardCount (st : EngineSt) : Nat :=
  st.main_deck.length
    + (st.players.map (fun p => handCount p.hand)).sum
    + st.discard_pile.length

/-- The values that one turn's blocking decision-interface calls return
(`pick_turn_type`, `decide_on_card_use`, `pick_hand_cards_for_exchange`,
`pick_position_for_new_card`, `pick_cards_to_see`, `specify_spying`,
`specify_swap`).  `exchange_sel` holds the hand positions whose cards the
child class returns (`[self.hand[p] for p in positions]`);
`new_card_pos = none` models any non-`int` reply (the decline case). -/
structure TurnDecisions where
  play : String
  card_use : String
  exchange_sel : List Nat
  new_card_pos : Option Nat
  peek_pos : Nat
  spy_opp : Nat
  spy_pos : Nat
  swap_opp : Nat
  swap_own_idx : Nat
  swap_opp_idx : Nat
  deriving Repr, DecidableEq

/-- Effectful map over a list in the `Option` monad, written with
explicit recursion (the Python list comprehensions and loops it models
stop at the first crash). -/
def mapOption {α β : Type} (f : α → Option β) : List α → Option (List β)
  | [] => some []
  | a :: l =>
    match f a with
    | none => none
    | some b =>
      match mapOption f l with
      | none => none
      | some bs => some (b :: bs)

/-- Effectful map over a list in the `Except` monad, written with
explicit recursion. -/
def mapExcept {α β : Type} (f : α → Except String β) : List α → Except String (List β)
  | [] => Except.ok []
  | a :: l =>
    match f a with
    | Except.error e => Except.error e
    | Except.ok b =>
      match mapExcept f l with
      | Except.error e => Except.error e
      | Except.ok bs => Except.ok (b :: bs)

/-- Turn the selected hand positions into the list of `Card`s the child
class hands to the engine; a position that is out of range or points at
a `None` hole makes the child-side list comprehension crash. -/
def selectCards (hand : List (Option Card)) (positions : List Nat) :
    Except String (List Card) :=
  mapExcept (fun p =>
    match hand.getD p none with
    | some c => Except.ok c
    | none => Except.error "selection error") positions

/-- Python `self.hand.index(card)` under object identity: the first hand
slot holding the card with this `id`. -/
def indexCard : List (Option Card) → Card → Option Nat
  | [], _ => none
  | s :: rest, c =>
    if (match s with | some d => d.id == c.id | none => false) then some 0
    else (indexCard rest c).map (fun n => n + 1)

/-- The discarding loop at the top of `Player.perform_card_exchange`:
each selected card is pushed on the discard pile, its position recorded
in `free_slots` and its hand slot overwritten with `None`.  A selected
card that is (no longer) in the hand raises `ValueError`. -/
def removeSelected :
    EngineSt → Nat → List Card → List Nat → Except String (EngineSt × List Nat)
  | st, _, [], free_slots => Except.ok (st, free_slots)
  | st, pidx, c :: rest, free_slots =>
    let st1 := discard_card st c
    match indexCard (getPlayer st1 pidx).hand c with
    | none => Except.error "ValueError: card is not in hand"
    | some idx =>
      let st2 := modifyPlayer st1 pidx (fun p => { p with hand := p.hand.set idx none })
      removeSelected st2 pidx rest (free_slots ++ [idx])

/-- `Player.perform_card_exchange`: discard the selected cards, then
either place the drawn card at the chosen position and compact the hand
(`self.hand = [c for c in self.hand if c]`), or — when the reply is not
an `int` — discard the drawn card.  Note that in the decline branch the
`None` holes are NOT filtered out of the hand. -/
def perform_card_exchange (st : EngineSt) (pidx : Nat)
    (cards_selected_for_exchange : List Card) (drawn_card : Card)
    (d : TurnDecisions) : Except String EngineSt :=
  match removeSelected st pidx cards_selected_for_exchange [] with
  | Except.error e => Except.error e
  | Except.ok (st1, _free_slots) =>
    match d.new_card_pos with
    | some pos =>
      if pos < (getPlayer st1 pidx).hand.length then
        Except.ok (modifyPlayer st1 pidx (fun p =>
          { p with hand := (p.hand.set pos (some drawn_card)).filter (fun s => s.isSome) }))
      else Except.error "IndexError: hand assignment out of range"
    | none => Except.ok (discard_card st1 drawn_card)

/-- Set `publicly_visible` on every hand card whose id is listed
(the in-place `card.publicly_visible = True` loop of
`Player.failed_multi_exchange`). -/
def setVisibleInHand (hand : List (Option Card)) (ids : List Nat) :
    List (Option Card) :=
  hand.map (fun s => match s with
    | some c => if ids.contains c.id then some { c with publicly_visible := true } else some c
    | none => none)

/-- `Player.failed_multi_exchange`: turn the attempted cards face up in
place, append the drawn card to the hand, and when three or more cards
were attempted and the deck is not empty, draw one penalty card from the
deck face down into the hand. -/
def failed_multi_exchange (st : EngineSt) (pidx : Nat) (drawn_card : Card)
    (attempted_cards : List Card) : EngineSt :=
  let ids := attempted_cards.map (fun c => c.id)
  let st1 := modifyPlayer st pidx (fun p => { p with hand := setVisibleInHand p.hand ids })
  let st2 := modifyPlayer st1 pidx (fun p => { p with hand := p.hand ++ [some drawn_card] })
  if 3 ≤ attempted_cards.length then
    match st2.main_deck with
    | [] => st2
    | penalty :: deck1 =>
      { modifyPlayer st2 pidx (fun p =>
          { p with hand := p.hand ++ [some { penalty with status := "HAND" }] })
        with main_deck := deck1 }
  else st2

/-- `Player.keep_drawn_card`: mark the drawn card as held and known to
its owner, ask for the cards to exchange, and dispatch on the
consistency of the selection. -/
def keep_drawn_card (st : EngineSt) (pidx : Nat) (drawn0 : Card)
    (d : TurnDecisions) : Except String EngineSt :=
  let drawn : Card :=
    { drawn0 with status := "HAND", publicly_visible := false, known_to_owner := true }
  match selectCards (getPlayer st pidx).hand d.exchange_sel with
  | Except.error e => Except.error e
  | Except.ok cards_to_be_discarded =>
    if check_card_list_consistency cards_to_be_discarded then
      perform_card_exchange st pidx cards_to_be_discarded drawn d
    else
      Except.ok (failed_multi_exchange st pidx drawn cards_to_be_discarded)

/-- `Player.peak` (the KUK effect): reveal one own card to its owner. -/
def peak (st : EngineSt) (pidx : Nat) (d : TurnDecisions) :
    Except String EngineSt :=
  let hand := (getPlayer st pidx).hand
  if d.peek_pos < hand.length then
    match hand.getD d.peek_pos none with
    | some c =>
      Except.ok (modifyPlayer st pidx (fun p =>
        { p with hand := p.hand.set d.peek_pos (some { c with known_to_owner := true }) }))
    | none => Except.error "AttributeError: peeked a None slot"
  else Except.error "IndexError: peek position out of range"

/-- `Player.spy` (the SPION effect): append the acting player to the
spied card's `known_to_other_players` list. -/
def spy (st : EngineSt) (pidx : Nat) (d : TurnDecisions) :
    Except String EngineSt :=
  if d.spy_opp < st.players.length then
    let opp := getPlayer st d.spy_opp
    if d.spy_pos < opp.hand.length then
      match opp.hand.getD d.spy_pos none with
      | some c =>
        let c1 : Card :=
          { c with known_to_other_players :=
              c.known_to_other_players ++ [(getPlayer st pidx).player_id] }
        Except.ok (modifyPlayer st d.spy_opp (fun p =>
          { p with hand := p.hand.set d.spy_pos (some c1) }))
      | none => Except.error "AttributeError: spied a None slot"
    else Except.error "IndexError: spy position out of range"
  else Except.error "IndexError: opponent out of range"

/-- `Player.swap` (the KSEFT effect): exchange the two hand slots, then
recompute each card's `known_to_owner` by calling
`check_knowledge_of_card` on its NEW owner — note that this call happens
after the physical swap, so the `card in self.hand` branch applies. -/
def swap_effect (st : EngineSt) (pidx : Nat) (d : TurnDecisions) :
    Except String EngineSt :=
  if pidx < st.players.length ∧ d.swap_opp < st.players.length then
    let self0 := getPlayer st pidx
    let opp0 := getPlayer st d.swap_opp
    if d.swap_own_idx < self0.hand.length ∧ d.swap_opp_idx < opp0.hand.length then
      let a := self0.hand.getD d.swap_own_idx none
      let b := opp0.hand.getD d.swap_opp_idx none
      let st1 := modifyPlayer st pidx (fun p =>
        { p with hand := p.hand.set d.swap_own_idx b })
      let st2 := modifyPlayer st1 d.swap_opp (fun p =>
        { p with hand := p.hand.set d.swap_opp_idx a })
      match (getPlayer st2 d.swap_opp).hand.getD d.swap_opp_idx none with
      | none => Except.error "AttributeError: swapped a None slot"
      | some opponents_card =>
        let oc1 :=
          { opponents_card with known_to_owner :=
              check_knowledge_of_card (getPlayer st2 d.swap_opp) opponents_card }
        let st3 := modifyPlayer st2 d.swap_opp (fun p =>
          { p with hand := p.hand.set d.swap_opp_idx (some oc1) })
        match (getPlayer st3 pidx).hand.getD d.swap_own_idx none with
        | none => Except.error "AttributeError: swapped a None slot"
        | some own_card =>
          let wc1 :=
            { own_card with known_to_owner :=
                check_knowledge_of_card (getPlayer st3 pidx) own_card }
          Except.ok (modifyPlayer st3 pidx (fun p =>
            { p with hand := p.hand.set d.swap_own_idx (some wc1) }))
    else Except.error "IndexError: swap position out of range"
  else Except.error "IndexError: swap player out of range"

/-- `Player.hit_deck`: pop the top of the main deck and dispatch on the
player's decision.  The Python `match` statement has no default case, so
an out-of-contract decision silently drops the drawn card; playing
`EFFECT` on an effect-less card raises `KeyError`. -/
def hit_deck (st : EngineSt) (pidx : Nat) (d : TurnDecisions) :
    Except String EngineSt :=
  match st.main_deck with
  | [] => Except.error "IndexError: pop from empty deck"
  | drawn :: deck1 =>
    let st1 : EngineSt := { st with main_deck := deck1 }
    if d.card_use == "KEEP" then keep_drawn_card st1 pidx drawn d
    else if d.card_use == "DISCARD" then Except.ok (discard_card st1 drawn)
    else if d.card_use == "EFFECT" then
      let st2 := discard_card st1 drawn
      match drawn.effect with
      | some "KUK" => peak st2 pidx d
      | some "SPION" => spy st2 pidx d
      | some "KSEFT" => swap_effect st2 pidx d
      | _ => Except.error "KeyError: no such effect"
    else Except.ok st1

/-- Mark the card with this id publicly visible wherever it now lives
(hand of the acting player or discard pile): models the Python
`_top_discarded_card.publicly_visible = True` executed on the shared
object after `keep_drawn_card` has placed it. -/
def set_visible_by_id (st : EngineSt) (pidx : Nat) (cid : Nat) : EngineSt :=
  let st1 := modifyPlayer st pidx (fun p =>
    { p with hand := p.hand.map (fun s => match s with
        | some c => if c.id == cid then some { c with publicly_visible := true } else some c
        | none => none) })
  { st1 with discard_pile := st1.discard_pile.map (fun c =>
      if c.id == cid then { c with publicly_visible := true } else c) }

/-- `Player.hit_discard_pile`: pop the top of the discard pile, run the
keep/exchange protocol on it, then flip the taken card face up. -/
def hit_discard_pile (st : EngineSt) (pidx : Nat) (d : TurnDecisions) :
    Except String EngineSt :=
  match st.discard_pile with
  | [] => Except.error "IndexError: pop from empty discard pile"
  | top :: rest =>
    let st1 : EngineSt := { st with discard_pile := rest }
    match keep_drawn_card st1 pidx top d with
    | Except.error e => Except.error e
    | Except.ok st2 => Except.ok (set_visible_by_id st2 pidx top.id)

/-- `Player.call_kabo`: raises `ValueError` when Kabo was already called
this round, otherwise sets the player's `called_kabo` flag. -/
def call_kabo (st : EngineSt) (pidx : Nat) : Except String EngineSt :=
  if st.kabo_called then
    Except.error "ValueError: Kabo cannot be called twice in the same round!"
  else
    Except.ok (modifyPlayer st pidx (fun p => { p with called_kabo := true }))

/-- `Player.perform_turn`.  The opening `print` reads
`_round.discard_pile[-1].value` unconditionally, so an empty discard
pile raises `IndexError` before any decision is made.  A `KABO` wish
when Kabo was already called falls back to `hit_deck` (no error); the
returned `Bool` reports whether the player called Kabo. -/
def perform_turn (st : EngineSt) (pidx : Nat) (d : TurnDecisions) :
    Except String (EngineSt × Bool) :=
  match st.discard_pile with
  | [] => Except.error "IndexError: discard pile empty at turn start"
  | _ :: _ =>
    if d.play == "KABO" then
      if st.kabo_called then
        match hit_deck st pidx d with
        | Except.error e => Except.error e
        | Except.ok st1 => Except.ok (st1, false)
      else
        match call_kabo st pidx with
        | Except.error e => Except.error e
        | Except.ok st1 => Except.ok (st1, true)
    else if d.play == "HIT_DECK" then
      match hit_deck st pidx d with
      | Except.error e => Except.error e
      | Except.ok st1 => Except.ok (st1, false)
    else if d.play == "HIT_DISCARD_PILE" then
      match hit_discard_pile st pidx d with
      | Except.error e => Except.error e
      | Except.ok st1 => Except.ok (st1, false)
    else Except.error "ValueError: unsupported play"

/-- The `while` loop of `Round.start_playing`, driven by a finite script
of turn decisions (the Python loop blocks on the decision interface; an
exhausted script is simply an observation point between turns).  Checks,
in the Python order: deck empty, then Kabo countdown zero.  Returns the
final state and the number of turns executed.  `t` is the index into the
player cycle, `counter` the Kabo countdown (initially the player count)
and `active` the `_kabo_active` flag. -/
def playLoop :
    EngineSt → Nat → Nat → Bool → List TurnDecisions → Except String (EngineSt × Nat)
  | st, _, _, _, [] => Except.ok (st, 0)
  | st, t, counter, active, d :: ds =>
    if st.main_deck.isEmpty then Except.ok (st, 0)
    else if counter == 0 then Except.ok (st, 0)
    else
      match perform_turn st (t % st.players.length) d with
      | Except.error e => Except.error e
      | Except.ok (st1, kabo_called) =>
        let st2 := if kabo_called then { st1 with kabo_called := true } else st1
        let active1 := active || kabo_called
        let counter1 := if active1 then counter - 1 else counter
        match playLoop st2 (t + 1) counter1 active1 ds with
        | Except.error e => Except.error e
        | Except.ok (stFin, n) => Except.ok (stFin, n + 1)

/-- Pop the top of a deck (`list.pop()`), raising on an empty deck. -/
def popDeck (deck : List Card) : Except String (Card × List Card) :=
  match deck with
  | [] => Except.error "IndexError: pop from empty deck"
  | c :: r => Except.ok (c, r)

/-- Deal `n` cards from the deck into a hand
(`Round._deal_single_card`: append to the hand and set the status). -/
def deal_n (deck : List Card) (hand : List (Option Card)) :
    Nat → Except String (List Card × List (Option Card))
  | 0 => Except.ok (deck, hand)
  | n + 1 =>
    match popDeck deck with
    | Except.error e => Except.error e
    | Except.ok (c, deck1) =>
      deal_n deck1 (hand ++ [some { c with status := "HAND" }]) n

/-- `Round._deal_cards_to_players`: deal `CARDS_PER_PLAYER` cards to each
player in order. -/
def deal_all : List Card → List PlayerSt → Except String (List Card × List PlayerSt)
  | deck, [] => Except.ok (deck, [])
  | deck, p :: ps =>
    match deal_n deck [] CARDS_PER_PLAYER with
    | Except.error e => Except.error e
    | Except.ok (deck1, hand) =>
      match deal_all deck1 ps with
      | Except.error e => Except.error e
      | Except.ok (deck2, ps1) => Except.ok (deck2, { p with hand := hand } :: ps1)

/-- `Round.__init__` after the shuffle: rotate the player list, reset the
players (`reset_player_after_round`: clear the hand, clear
`called_kabo`), deal, and move one card from the deck to the discard
pile.  `cards` is the already-shuffled deck, top first. -/
def round_init (cards : List Card) (players : List PlayerSt)
    (start_player_index : Nat) : Except String EngineSt :=
  let rotated := players.drop start_player_index ++ players.take start_player_index
  let reset := rotated.map (fun p => { p with hand := ([] : List (Option Card)), called_kabo := false })
  match deal_all cards reset with
  | Except.error e => Except.error e
  | Except.ok (deck1, players1) =>
    match popDeck deck1 with
    | Except.error e => Except.error e
    | Except.ok (first_discarded, deck2) =>
      discard_card
        { main_deck := deck2, discard_pile := [], kabo_called := false,
          players := players1 }
        first_discarded |> Except.ok

/-- Python `sum([c.value for c in self.hand])`: `none` when the hand
holds a `None` hole (the comprehension raises `AttributeError`). -/
def hand_sum (hand : List (Option Card)) : Option Nat :=
  match mapOption id hand with
  | some cs => some ((cs.map (fun c => c.value)).sum)
  | none => none

/-- `Player.get_players_score_in_round`, with explicit recursion fuel.
The Python function recurses into the scores of all other players when
the player called Kabo; `none` models a crash (a `None` in a hand, the
`min` of an empty list, or — fuel exhausted — the infinite recursion
that two `called_kabo` players would produce). -/
def get_players_score_fuel : Nat → List PlayerSt → PlayerSt → Option Nat
  | 0, _, _ => none
  | fuel + 1, players, p =>
    match hand_sum p.hand with
    | none => none
    | some sum_hand =>
      if !p.called_kabo then some sum_hand
      else
        match mapOption (get_players_score_fuel fuel players)
            (players.filter (fun plr => !(peqB plr p))) with
        | none => none
        | some other_player_scores =>
          match other_player_scores.min? with
          | none => none
          | some m => if sum_hand ≤ m then some 0 else some (sum_hand + KABO_MALUS)

/-- `Player.get_players_score_in_round`.  Fuel 2 is exact: a non-caller
returns at depth 1, a caller recurses once into non-callers, and with
two callers the Python recursion never terminates (RecursionError),
which fuel 2 also maps to `none`. -/
def get_players_score_in_round (players : List PlayerSt) (p : PlayerSt) : Option Nat :=
  get_players_score_fuel 2 players p

/-- The Kamikadze test for one player, as in `Round._check_kamikadze`:
only a hand whose length is listed in `NUMBER_OF_CARDS_FOR_KAMIKADZE`
is inspected; it activates when every `(value, frequency)` requirement
of `KAMIKADZE_VALUES` is met. -/
def kamikadze_hand (p : PlayerSt) : Option Bool :=
  if NUMBER_OF_CARDS_FOR_KAMIKADZE.contains p.hand.length then
    match mapOption id p.hand with
    | none => none
    | some cs =>
      let card_values := cs.map (fun c => c.value)
      some (KAMIKADZE_VALUES.all (fun vf => vf.2 ≤ card_values.count vf.1))
  else some false

/-- `Round._check_kamikadze`: the first player (in round order) whose
hand activates Kamikadze, if any. -/
def check_kamikadze : List PlayerSt → Option (Option PlayerSt)
  | [] => some none
  | p :: rest =>
    match kamikadze_hand p with
    | none => none
    | some true => some (some p)
    | some false => check_kamikadze rest

/-- `Round._update_players_game_scores`: when a Kamikadze player exists,
every OTHER player's game score grows by `KAMIKADZE_PENALTY` (the
Kamikadze player's is untouched); otherwise each player's game score
grows by their Kabo-based round score. -/
def update_players_game_scores (players : List PlayerSt) : Option (List PlayerSt) :=
  match check_kamikadze players with
  | none => none
  | some (some kamikadze_player) =>
    some (players.map (fun p =>
      if peqB p kamikadze_player then p
      else { p with players_game_score := p.players_game_score + KAMIKADZE_PENALTY }))
  | some none =>
    mapOption (fun p =>
      match get_players_score_in_round players p with
      | none => none
      | some s => some { p with players_game_score := p.players_game_score + s }) players

/-- `Round.start_playing`: run the playing loop (player cycle starting
at index 0, Kabo counter initialised to the player count), then compute
the per-player `round_scores` (name, score) from the final state and
update the cumulative game scores.  Returns the final state, the number
of turns played, the round scores and the updated player list. -/
def start_playing (st : EngineSt) (ds : List TurnDecisions) :
    Except String (EngineSt × Nat × List (String × Option Nat) × Option (List PlayerSt)) :=
  match playLoop st 0 st.players.length false ds with
  | Except.error e => Except.error e
  | Except.ok (st1, n) =>
    Except.ok (st1, n,
      st1.players.map (fun p => (p.name, get_players_score_in_round st1.players p)),
      update_players_game_scores st1.players)

/-- `Player.reached_score_100`: on the first visit snap the score to
`POINT_VALUE_AFTER_HITTING_TARGET` and keep playing; on a second visit
report that the game must stop. -/
def reached_score_100 (p : PlayerSt) : PlayerSt × Bool :=
  if p.matched_100 then (p, false)
  else
    let p1 : PlayerSt :=
      { p with matched_100 := true,
               players_game_score := POINT_VALUE_AFTER_HITTING_TARGET }
    (p1, true)

/-- The end-of-round score check of `Game.play_game`: walk the players
in order; a score of exactly `TARGET_POINT_VALUE` runs
`reached_score_100` — but only when the game is still continuing,
because Python's `_play_next_round and player.reached_score_100()`
short-circuits — and any score strictly above the target clears
`_play_next_round`. -/
def check_scores_after_round : List PlayerSt → Bool → List PlayerSt × Bool
  | [], play_next => ([], play_next)
  | p :: rest, play_next =>
    if p.players_game_score == TARGET_POINT_VALUE then
      if play_next then
        let (p1, b) := reached_score_100 p
        let (rest1, bFin) := check_scores_after_round rest b
        (p1 :: rest1, bFin)
      else
        let (rest1, bFin) := check_scores_after_round rest false
        (p :: rest1, bFin)
    else if TARGET_POINT_VALUE < p.players_game_score then
      let (rest1, bFin) := check_scores_after_round rest false
      (p :: rest1, bFin)
    else
      let (rest1, bFin) := check_scores_after_round rest play_next
      (p :: rest1, bFin)

/-- Specification-side: the plain sum of the card values in a hand. -/
def handSumV (p : PlayerSt) : Nat :=
  ((handCards p.hand).map (fun c => c.value)).sum

/-- Specification-side: the minimum hand sum among the players other
than `p` (`none` when there are no other players). -/
def minOthers (players : List PlayerSt) (p : PlayerSt) : Option Nat :=
  ((players.filter (fun q => !(peqB q p))).map handSumV).min?

/-- Specification-side Kabo scoring formula of the spec (used to compare
the code's scoring against): non-callers score their hand sum; the
caller scores 0 on `handSum ≤ minOthers`, otherwise hand sum plus the
malus. -/
def kaboRoundScore (players : List PlayerSt) (q : PlayerSt) : Nat :=
  if !q.called_kabo then handSumV q
  else
    match minOthers players q with
    | some m => if handSumV q ≤ m then 0 else handSumV q + KABO_MALUS
    | none => 0

/-- Specification-side Kamikaze qualification: exactly 4 cards with at
least two 12s and two 13s. -/
def kamikazeQual (p : PlayerSt) : Bool :=
  p.hand.length == 4
    && decide (2 ≤ ((handCards p.hand).map (fun c => c.value)).count 12)
    && decide (2 ≤ ((handCards p.hand).map (fun c => c.value)).count 13)

/-- Extract the success value of an engine computation (used only to
state closed witness theorems; a failing computation yields an empty
engine state). -/
def getOk (e : Except String EngineSt) : EngineSt :=
  match e with
  | Except.ok st => st
  | Except.error _ => { main_deck := [], discard_pile := [], kabo_called := false, players := [] }

/-- The free-slot list that the discarding loop of
`perform_card_exchange` computes, as a function of the acting player's
hand alone (the discard pile plays no role in it): used to phrase the
decision-interface contract `ChoosePositionForNewCard(freePositions)
returns a member of freePositions` without re-running the engine. -/
def free_slots_of : List (Option Card) → List Card → List Nat → Option (List Nat)
  | _, [], fs => some fs
  | hand, c :: rest, fs =>
    match indexCard hand c with
    | none => none
    | some idx => free_slots_of (hand.set idx none) rest (fs ++ [idx])

/-- The decision-interface contract of the spec, for one turn:
`DecideOnDrawnCard` returns one of `KEEP`/`DISCARD`/`EFFECT`, and
`ChoosePositionForNewCard` returns either a decline or one of the free
slots that the engine will offer.  (The engine itself never checks
either condition.) -/
def decision_ok (st : EngineSt) (pidx : Nat) (d : TurnDecisions) : Bool :=
  MAIN_DECK_CARD_DECISIONS.contains d.card_use &&
  (match d.new_card_pos with
   | none => true
   | some pos =>
     match selectCards (getPlayer st pidx).hand d.exchange_sel with
     | Except.error _ => true
     | Except.ok sel =>
       match free_slots_of (getPlayer st pidx).hand sel [] with
       | none => true
       | some fs => fs.contains pos)

/-- The decision-interface contract along a whole scripted run: each
turn's decisions satisfy `decision_ok` in the state in which the turn is
taken. -/
def decisions_ok : EngineSt → Nat → List TurnDecisions → Bool
  | _, _, [] => true
  | st, t, d :: ds =>
    decision_ok st (t % st.players.length) d &&
    (match perform_turn st (t % st.players.length) d with
     | Except.ok (st1, b) =>
       decisions_ok (if b then { st1 with kabo_called := true } else st1) (t + 1) ds
     | Except.error _ => true)

/-- Shorthand used by concrete test states: a fresh card. -/
def mkC (v i : Nat) : Card := mkCard v i

/-- Shorthand used by concrete test states: a hand without holes. -/
def hnd (cs : List Card) : List (Option Card) := cs.map some

/-- Shorthand used by concrete test states: a fresh player holding the
given cards. -/
def mkP (pid : Nat) (nm : String) (cs : List Card) : PlayerSt :=
  { player_id := pid, name := nm, hand := hnd cs, called_kabo := false,
    players_game_score := 0, matched_100 := false }

/-- Shorthand used by concrete test states: a neutral decision record
(draw from the deck and discard the drawn card). -/
def baseDecision : TurnDecisions :=
  { play := "HIT_DECK", card_use := "DISCARD", exchange_sel := [],
    new_card_pos := none, peek_pos := 0, spy_opp := 0, spy_pos := 0,
    swap_opp := 0, swap_own_idx := 0, swap_opp_idx := 0 }

/-- Extract the success value of a turn computation (used only to state
closed theorems about concrete runs). -/
def stOf (e : Except String (EngineSt × Bool)) : EngineSt × Bool :=
  match e with
  | Except.ok x => x
  | Except.error _ =>
    ({ main_deck := [], discard_pile := [], kabo_called := false, players := [] }, false)

/-- Extract the success value of a loop run (used only to state closed
theorems about concrete runs). -/
def runOf (e : Except String (EngineSt × Nat)) : EngineSt × Nat :=
  match e with
  | Except.ok x => x
  | Except.error _ =>
    ({ main_deck := [], discard_pile := [], kabo_called := false, players := [] }, 0)

/-- Concrete card for the swap scenario: value 5, id 10, owned by player
A (id 0), not known to its owner, spied by player B (id 1). -/
def swapCardC : Card :=
  { value := 5, id := 10, effect := none, publicly_visible := false,
    known_to_owner := false, known_to_other_players := [1], status := "HAND" }

/-- Concrete card for the swap scenario: value 6, id 11, owned by player
B (id 1), known to its owner, never spied. -/
def swapCardD : Card :=
  { value := 6, id := 11, effect := none, publicly_visible := false,
    known_to_owner := true, known_to_other_players := [], status := "HAND" }

/-- Concrete two-player state for the swap scenario: A (id 0) holds
`swapCardC`, B (id 1) holds `swapCardD`. -/
def swapStateAB : EngineSt :=
  { main_deck := [], discard_pile := [], kabo_called := false,
    players := [{ mkP 0 "A" [] with hand := [some swapCardC] },
                { mkP 1 "B" [] with hand := [some swapCardD] }] }

/-- B swaps own card 0 with A's card 0. -/
def swapDecision : TurnDecisions :=
  { baseDecision with swap_opp := 0, swap_own_idx := 0, swap_opp_idx := 0 }

/-- Concrete state for the declined-exchange scenario: player A holds
two 5s and two effect cards, the deck and pile are nonempty. -/
def exchangeDeclineState : EngineSt :=
  { main_deck := [mkC 9 90], discard_pile := [mkC 2 91], kabo_called := false,
    players := [mkP 0 "A" [mkC 5 1, mkC 5 2, mkC 7 3, mkC 8 4], mkP 1 "B" [mkC 1 5]] }

/-- A draws from the deck, keeps the card, selects the two 5s (a
consistent multi-exchange) and then declines the placement. -/
def exchangeDeclineDecision : TurnDecisions :=
  { baseDecision with card_use := "KEEP", exchange_sel := [0, 1], new_card_pos := none }

/-- Concrete state for the empty-discard-pile scenario: the discard pile
holds exactly one card, the deck two. -/
def pileExhaustState : EngineSt :=
  { main_deck := [mkC 9 90, mkC 9 92], discard_pile := [mkC 2 91], kabo_called := false,
    players := [mkP 0 "A" [mkC 5 1, mkC 6 2, mkC 7 3, mkC 8 4],
                mkP 1 "B" [mkC 1 5, mkC 1 6, mkC 2 7, mkC 3 8]] }

/-- A draws the pile's only card and attempts a mismatched 2-card
exchange (values 5 and 6), triggering the failed-multi-exchange path in
which nothing is discarded. -/
def pileExhaustDecision : TurnDecisions :=
  { baseDecision with
    play := "HIT_DISCARD_PILE", card_use := "KEEP",
    exchange_sel := [0, 1], new_card_pos := none }

/-- Concrete state in which Kabo has already been called this round. -/
def dupKaboState : EngineSt :=
  { main_deck := [mkC 9 90, mkC 9 92], discard_pile := [mkC 2 91], kabo_called := true,
    players := [mkP 0 "A" [mkC 5 1, mkC 6 2, mkC 7 3, mkC 8 4], mkP 1 "B" [mkC 1 5]] }

/-- The player asks for KABO (their fallback deck draw discards). -/
def dupKaboDecision : TurnDecisions :=
  { baseDecision with play := "KABO", card_use := "DISCARD" }

/-- Concrete player for the scoring scenario: called Kabo holding cards
of values 1 and 2. -/
def scoreCaller : PlayerSt :=
  { mkP 0 "A" [mkC 1 1, mkC 2 2] with called_kabo := true }

/-- Concrete player for the scoring scenario: did not call Kabo, holds
two 5s. -/
def scoreOpp : PlayerSt := mkP 1 "B" [mkC 5 3, mkC 5 4]

/-- Concrete player holding the Kamikaze hand `[12, 12, 13, 13]`. -/
def kamikazePlayer : PlayerSt :=
  mkP 0 "A" [mkC 12 1, mkC 12 2, mkC 13 3, mkC 13 4]

/-- Concrete bystander for the Kamikaze scenario. -/
def kamikazeOther : PlayerSt := mkP 1 "B" [mkC 1 5, mkC 1 6]

/-- Concrete state for the failed-multi-exchange witness: one player
holding four cards of distinct values, a two-card deck. -/
def failedExchState : EngineSt :=
  { main_deck := [mkC 4 40, mkC 6 41], discard_pile := [mkC 2 42], kabo_called := false,
    players := [mkP 0 "A" [mkC 5 1, mkC 6 2, mkC 7 3, mkC 8 4]] }

/-- The drawn card of the failed-multi-exchange witness. -/
def failedDrawn : Card := mkC 9 50

/-- Concrete two-player state for the Kabo-countdown witness. -/
def kaboRunState : EngineSt :=
  { main_deck := [mkC 9 60, mkC 9 61, mkC 9 62], discard_pile := [mkC 2 63],
    kabo_called := false,
    players := [mkP 0 "A" [mkC 1 70], mkP 1 "B" [mkC 1 71]] }

/-- The first player calls Kabo. -/
def kaboCallDecision : TurnDecisions := { baseDecision with play := "KABO" }

/-- Concrete pair of fresh players for the conservation witness. -/
def witnessPlayers : List PlayerSt := [mkP 0 "A" [], mkP 1 "B" []]

/-- Concrete player whose cumulative score strictly exceeds the target. -/
def over100Player : PlayerSt :=
  { mkP 0 "A" [] with players_game_score := 105 }

/-- Concrete player whose cumulative score is exactly the target for the
first time. -/
def at100Player : PlayerSt :=
  { mkP 1 "B" [] with players_game_score := 100 }

/-! Basic list bookkeeping lemmas. -/

theorem length_listModify {α : Type} (l : List α) (i : Nat) (f : α → α) :
    (listModify l i f).length = l.length := by
  induction l generalizing i with
  | nil => rfl
  | cons a t ih =>
    cases i with
    | zero => rfl
    | succ n => simpa [listModify] using ih n

theorem getD_listModify_self {α : Type} (l : List α) (i : Nat) (f : α → α)
    (d₀ : α) (h : i < l.length) :
    (listModify l i f).getD i d₀ = f (l.getD i d₀) := by
  induction l generalizing i with
  | nil => simp at h
  | cons a t ih =>
    cases i with
    | zero => rfl
    | succ n =>
      simp only [listModify, List.getD_cons_succ]
      exact ih n (by simpa using h)

theorem getD_listModify_ne {α : Type} (l : List α) (i j : Nat) (f : α → α)
    (d₀ : α) (h : i ≠ j) :
    (listModify l i f).getD j d₀ = l.getD j d₀ := by
  induction l generalizing i j with
  | nil => rfl
  | cons a t ih =>
    cases i with
    | zero =>
      cases j with
      | zero => exact absurd rfl h
      | succ m => rfl
    | succ n =>
      cases j with
      | zero => rfl
      | succ m =>
        simp only [listModify, List.getD_cons_succ]
        exact ih n m (fun e => h (by omega))

theorem getD_set_self {α : Type} (l : List α) (i : Nat) (x d₀ : α)
    (h : i < l.length) : (l.set i x).getD i d₀ = x := by
  induction l generalizing i with
  | nil => simp at h
  | cons a t ih =>
    cases i with
    | zero => rfl
    | succ n =>
      simp only [List.set, List.getD_cons_succ]
      exact ih n (by simpa using h)

theorem getD_set_ne {α : Type} (l : List α) (i j : Nat) (x d₀ : α)
    (h : i ≠ j) : (l.set i x).getD j d₀ = l.getD j d₀ := by
  induction l generalizing i j with
  | nil => rfl
  | cons a t ih =>
    cases i with
    | zero =>
      cases j with
      | zero => exact absurd rfl h
      | succ m => rfl
    | succ n =>
      cases j with
      | zero => rfl
      | succ m =>
        simp only [List.set, List.getD_cons_succ]
        exact ih n m (fun e => h (by omega))

theorem sum_map_listModify {α : Type} (l : List α) (i : Nat) (f : α → α)
    (g : α → Nat) (d₀ : α) (h : i < l.length) :
    ((listModify l i f).map g).sum + g (l.getD i d₀)
      = (l.map g).sum + g (f (l.getD i d₀)) := by
  induction l generalizing i with
  | nil => simp at h
  | cons a t ih =>
    cases i with
    | zero => simp [listModify]; omega
    | succ n =>
      have := ih n (by simpa using h)
      simp only [listModify, List.map_cons, List.sum_cons, List.getD_cons_succ]
      omega

/-! Hand-counting lemmas. -/

/-- Weight of an optional hand slot: `1` for a card, `0` for a hole. -/
def optW (s : Option Card) : Nat :=
  match s with
  | some _ => 1
  | none => 0

theorem handCount_nil : handCount [] = 0 := rfl

theorem handCount_cons (s : Option Card) (h : List (Option Card)) :
    handCount (s :: h) = optW s + handCount h := by
  cases s <;> simp [handCount, handCards, optW, List.filterMap_cons] <;> omega

theorem handCount_append (h1 h2 : List (Option Card)) :
    handCount (h1 ++ h2) = handCount h1 + handCount h2 := by
  simp [handCount, handCards, List.filterMap_append]

theorem handCount_set (h : List (Option Card)) (i : Nat) (x : Option Card)
    (hi : i < h.length) :
    handCount (h.set i x) + optW (h.getD i none) = handCount h + optW x := by
  induction h generalizing i with
  | nil => simp at hi
  | cons a t ih =>
    cases i with
    | zero => simp [handCount_cons]; omega
    | succ n =>
      have := ih n (by simpa using hi)
      simp only [List.set, handCount_cons, List.getD_cons_succ]
      omega

theorem handCount_filter_isSome (h : List (Option Card)) :
    handCount (h.filter (fun s => s.isSome)) = handCount h := by
  induction h with
  | nil => rfl
  | cons a t ih =>
    cases a <;> simp [List.filter, handCount_cons, ih, optW]

theorem handCount_setVisibleInHand (h : List (Option Card)) (ids : List Nat) :
    handCount (setVisibleInHand h ids) = handCount h := by
  induction h with
  | nil => rfl
  | cons a t ih =>
    have hcons : setVisibleInHand (a :: t) ids
        = (match a with
           | some c =>
             if ids.contains c.id then some { c with publicly_visible := true } else some c
           | none => none) :: setVisibleInHand t ids := rfl
    rw [hcons, handCount_cons, handCount_cons, ih]
    cases a with
    | none => rfl
    | some c =>
      simp only [optW]
      split
      · rfl
      · rename_i heq
        split at heq <;> simp at heq

theorem length_setVisibleInHand (h : List (Option Card)) (ids : List Nat) :
    (setVisibleInHand h ids).length = h.length := by
  simp [setVisibleInHand]

/-! Engine state bookkeeping lemmas. -/

theorem players_modifyPlayer_length (st : EngineSt) (i : Nat) (f : PlayerSt → PlayerSt) :
    (modifyPlayer st i f).players.length = st.players.length :=
  length_listModify st.players i f

theorem deck_modifyPlayer (st : EngineSt) (i : Nat) (f : PlayerSt → PlayerSt) :
    (modifyPlayer st i f).main_deck = st.main_deck := rfl

theorem pile_modifyPlayer (st : EngineSt) (i : Nat) (f : PlayerSt → PlayerSt) :
    (modifyPlayer st i f).discard_pile = st.discard_pile := rfl

theorem getPlayer_modifyPlayer_self (st : EngineSt) (i : Nat)
    (f : PlayerSt → PlayerSt) (h : i < st.players.length) :
    getPlayer (modifyPlayer st i f) i = f (getPlayer st i) :=
  getD_listModify_self st.players i f dummyPlayer h

theorem getPlayer_modifyPlayer_ne (st : EngineSt) (i j : Nat)
    (f : PlayerSt → PlayerSt) (h : i ≠ j) :
    getPlayer (modifyPlayer st i f) j = getPlayer st j :=
  getD_listModify_ne st.players i j f dummyPlayer h

theorem getPlayer_discard (st : EngineSt) (c : Card) (i : Nat) :
    getPlayer (discard_card st c) i = getPlayer st i := rfl

theorem cardCount_discard (st : EngineSt) (c : Card) :
    cardCount (discard_card st c) = cardCount st + 1 := by
  simp [cardCount, discard_card]; omega

theorem cardCount_modifyPlayer (st : EngineSt) (i : Nat) (f : PlayerSt → PlayerSt)
    (h : i < st.players.length) :
    cardCount (modifyPlayer st i f) + handCount (getPlayer st i).hand
      = cardCount st + handCount (f (getPlayer st i)).hand := by
  have := sum_map_listModify st.players i f (fun p => handCount p.hand) dummyPlayer h
  simp only [cardCount, modifyPlayer, getPlayer] at this ⊢
  omega

theorem listModify_out_of_range {α : Type} (l : List α) (i : Nat) (f : α → α)
    (h : l.length ≤ i) : listModify l i f = l := by
  induction l generalizing i with
  | nil => rfl
  | cons a t ih =>
    cases i with
    | zero => simp at h
    | succ n =>
      simp only [listModify, List.cons.injEq, true_and]
      exact ih n (by simp at h; omega)

theorem cardCount_modifyPlayer_eq (st : EngineSt) (i : Nat) (f : PlayerSt → PlayerSt)
    (h : ∀ p, handCount (f p).hand = handCount p.hand) :
    cardCount (modifyPlayer st i f) = cardCount st := by
  by_cases hb : i < st.players.length
  · have := cardCount_modifyPlayer st i f hb
    rw [h (getPlayer st i)] at this
    omega
  · have hout : listModify st.players i f = st.players :=
      listModify_out_of_range st.players i f (by omega)
    simp [cardCount, modifyPlayer, hout]

theorem check_scores_false_absorbs (l : List PlayerSt) :
    (check_scores_after_round l false).2 = false := by
  induction l with
  | nil => rfl
  | cons p rest ih =>
    simp only [check_scores_after_round]
    by_cases h1 : p.players_game_score == TARGET_POINT_VALUE
    · simp [h1, ih]
    · by_cases h2 : TARGET_POINT_VALUE < p.players_game_score
      · simp [h1, h2, ih]
      · simp [h1, h2, ih]

/-! Card-conservation lemmas. -/

theorem modifyPlayer_oob (st : EngineSt) (i : Nat) (f : PlayerSt → PlayerSt)
    (h : st.players.length ≤ i) : modifyPlayer st i f = st := by
  unfold modifyPlayer
  rw [listModify_out_of_range st.players i f h]

theorem getPlayer_hand_length_modify_set (st : EngineSt) (i j k : Nat)
    (x : Option Card) :
    (getPlayer (modifyPlayer st i (fun p => { p with hand := p.hand.set k x })) j).hand.length
      = (getPlayer st j).hand.length := by
  by_cases hij : i = j
  · subst hij
    by_cases hb : i < st.players.length
    · rw [getPlayer_modifyPlayer_self _ _ _ hb]
      simp
    · rw [modifyPlayer_oob st i _ (by omega)]
  · rw [getPlayer_modifyPlayer_ne _ _ _ _ hij]

theorem cardCount_set_slot (st : EngineSt) (i slot : Nat) (x : Option Card)
    (hb : i < st.players.length) (hs : slot < (getPlayer st i).hand.length) :
    cardCount (modifyPlayer st i (fun p => { p with hand := p.hand.set slot x }))
      + optW ((getPlayer st i).hand.getD slot none)
      = cardCount st + optW x := by
  have h1 := cardCount_modifyPlayer st i
    (fun p => { p with hand := p.hand.set slot x }) hb
  have h2 := handCount_set (getPlayer st i).hand slot x hs
  simp only at h1
  omega

theorem indexCard_spec (h : List (Option Card)) (c : Card) :
    ∀ idx, indexCard h c = some idx →
      idx < h.length ∧ ∃ d, h.getD idx none = some d := by
  induction h with
  | nil =>
    intro idx hidx
    simp [indexCard] at hidx
  | cons s rest ih =>
    intro idx hidx
    cases s with
    | none =>
      simp only [indexCard, Bool.false_eq_true, if_false] at hidx
      cases hrec : indexCard rest c with
      | none =>
        rw [hrec] at hidx
        exact Option.noConfusion hidx
      | some n =>
        rw [hrec] at hidx
        injection hidx with h0
        subst h0
        have := ih n hrec
        exact ⟨by simp; omega, this.2⟩
    | some dd =>
      simp only [indexCard] at hidx
      by_cases hd : (dd.id == c.id) = true
      · rw [if_pos hd] at hidx
        injection hidx with h0
        subst h0
        exact ⟨by simp, dd, rfl⟩
      · rw [if_neg hd] at hidx
        cases hrec : indexCard rest c with
        | none =>
          rw [hrec] at hidx
          exact Option.noConfusion hidx
        | some n =>
          rw [hrec] at hidx
          injection hidx with h0
          subst h0
          have := ih n hrec
          exact ⟨by simp; omega, this.2⟩

theorem removeSelected_none_keep (sel : List Card) :
    ∀ (st : EngineSt) (pidx : Nat) (fs0 : List Nat) (st1 : EngineSt) (fs : List Nat),
      removeSelected st pidx sel fs0 = Except.ok (st1, fs) →
      pidx < st.players.length →
      ∀ i, (getPlayer st pidx).hand.getD i none = none →
      (getPlayer st1 pidx).hand.getD i none = none := by
  induction sel with
  | nil =>
    intro st pidx fs0 st1 fs hok hb i hi
    simp only [removeSelected, Except.ok.injEq, Prod.mk.injEq] at hok
    obtain ⟨h1, h2⟩ := hok
    subst h1
    exact hi
  | cons c rest ih =>
    intro st pidx fs0 st1 fs hok hb i hi
    simp only [removeSelected] at hok
    cases hidx : indexCard (getPlayer (discard_card st c) pidx).hand c with
    | none =>
      rw [hidx] at hok
      simp at hok
    | some idx =>
      rw [hidx] at hok
      rw [getPlayer_discard] at hidx
      have hspec := indexCard_spec (getPlayer st pidx).hand c idx hidx
      have hb1 : pidx < (discard_card st c).players.length := hb
      have hslot : (getPlayer (modifyPlayer (discard_card st c) pidx
          (fun p => { p with hand := p.hand.set idx none })) pidx).hand.getD i none
          = none := by
        rw [getPlayer_modifyPlayer_self _ _ _ hb1, getPlayer_discard]
        by_cases hii : idx = i
        · subst hii
          exact getD_set_self _ _ _ _ hspec.1
        · rw [getD_set_ne _ _ _ _ _ hii]
          exact hi
      exact ih _ pidx (fs0 ++ [idx]) st1 fs hok
        (by rw [players_modifyPlayer_length]; exact hb) i hslot

theorem removeSelected_ok (sel : List Card) :
    ∀ (st : EngineSt) (pidx : Nat) (fs0 : List Nat) (st1 : EngineSt) (fs : List Nat),
      removeSelected st pidx sel fs0 = Except.ok (st1, fs) →
      pidx < st.players.length →
      cardCount st1 = cardCount st
      ∧ st1.players.length = st.players.length
      ∧ st1.main_deck = st.main_deck
      ∧ (getPlayer st1 pidx).hand.length = (getPlayer st pidx).hand.length
      ∧ free_slots_of (getPlayer st pidx).hand sel fs0 = some fs
      ∧ (∀ i ∈ fs, i ∈ fs0 ∨ (getPlayer st1 pidx).hand.getD i none = none) := by
  induction sel with
  | nil =>
    intro st pidx fs0 st1 fs hok hb
    simp only [removeSelected, Except.ok.injEq, Prod.mk.injEq] at hok
    obtain ⟨h1, h2⟩ := hok
    subst h1
    subst h2
    exact ⟨rfl, rfl, rfl, rfl, rfl, fun i hi => Or.inl hi⟩
  | cons c rest ih =>
    intro st pidx fs0 st1 fs hok hb
    simp only [removeSelected] at hok
    cases hidx : indexCard (getPlayer (discard_card st c) pidx).hand c with
    | none =>
      rw [hidx] at hok
      simp at hok
    | some idx =>
      rw [hidx] at hok
      rw [getPlayer_discard] at hidx
      have hspec := indexCard_spec (getPlayer st pidx).hand c idx hidx
      obtain ⟨hidxlt, dcard, hdslot⟩ := hspec
      have hb1 : pidx < (discard_card st c).players.length := hb
      have hb2 : pidx < (modifyPlayer (discard_card st c) pidx
          (fun p => { p with hand := p.hand.set idx none })).players.length := by
        rw [players_modifyPlayer_length]
        exact hb
      have hrec := ih _ pidx (fs0 ++ [idx]) st1 fs hok hb2
      have hhand2 : (getPlayer (modifyPlayer (discard_card st c) pidx
          (fun p => { p with hand := p.hand.set idx none })) pidx).hand
          = (getPlayer st pidx).hand.set idx none := by
        rw [getPlayer_modifyPlayer_self _ _ _ hb1, getPlayer_discard]
      have hc1 : cardCount (discard_card st c) = cardCount st + 1 :=
        cardCount_discard st c
      have hc2 : cardCount (modifyPlayer (discard_card st c) pidx
            (fun p => { p with hand := p.hand.set idx none }))
          + optW ((getPlayer (discard_card st c) pidx).hand.getD idx none)
          = cardCount (discard_card st c) + optW none := by
        apply cardCount_set_slot
        · exact hb1
        · rw [getPlayer_discard]
          exact hidxlt
      rw [getPlayer_discard, hdslot] at hc2
      refine ⟨?_, ?_, ?_, ?_, ?_, ?_⟩
      · have := hrec.1
        simp only [optW] at hc2
        omega
      · rw [hrec.2.1, players_modifyPlayer_length]
        rfl
      · rw [hrec.2.2.1]
        rfl
      · rw [hrec.2.2.2.1, hhand2]
        simp
      · simp only [free_slots_of, hidx]
        rw [← hhand2]
        exact hrec.2.2.2.2.1
      · intro i hi
        rcases hrec.2.2.2.2.2 i hi with hin | hnone
        · rcases List.mem_append.mp hin with hin0 | hinidx
          · exact Or.inl hin0
          · right
            have hii : i = idx := by simpa using hinidx
            subst hii
            apply removeSelected_none_keep rest _ pidx _ st1 fs hok hb2
            rw [hhand2]
            exact getD_set_self _ _ _ _ hidxlt
        · exact Or.inr hnone

theorem perform_card_exchange_ok (st : EngineSt) (pidx : Nat) (sel : List Card)
    (drawn : Card) (d : TurnDecisions) (st' : EngineSt)
    (hok : perform_card_exchange st pidx sel drawn d = Except.ok st')
    (hb : pidx < st.players.length)
    (hcon : ∀ pos, d.new_card_pos = some pos →
        ∀ fs, free_slots_of (getPlayer st pidx).hand sel [] = some fs → pos ∈ fs) :
    cardCount st' = cardCount st + 1 ∧ st'.players.length = st.players.length := by
  simp only [perform_card_exchange] at hok
  cases hrm : removeSelected st pidx sel [] with
  | error e =>
    rw [hrm] at hok
    exact Except.noConfusion hok
  | ok pr =>
    obtain ⟨st1, fs⟩ := pr
    rw [hrm] at hok
    dsimp only at hok
    have hr := removeSelected_ok sel st pidx [] st1 fs hrm hb
    cases hpos : d.new_card_pos with
    | none =>
      rw [hpos] at hok
      dsimp only at hok
      injection hok with h0
      subst h0
      constructor
      · rw [cardCount_discard, hr.1]
      · rw [show (discard_card st1 drawn).players.length = st1.players.length from rfl,
          hr.2.1]
    | some pos =>
      rw [hpos] at hok
      dsimp only at hok
      by_cases hlt : pos < (getPlayer st1 pidx).hand.length
      · rw [if_pos hlt] at hok
        injection hok with h0
        subst h0
        have hb1 : pidx < st1.players.length := by
          rw [hr.2.1]
          exact hb
        have hslot : (getPlayer st1 pidx).hand.getD pos none = none := by
          rcases hr.2.2.2.2.2 pos (hcon pos hpos fs hr.2.2.2.2.1) with hin | hn
          · simp at hin
          · exact hn
        have hcm := cardCount_modifyPlayer st1 pidx (fun p =>
          { p with hand := (p.hand.set pos (some drawn)).filter (fun s => s.isSome) }) hb1
        simp only at hcm
        rw [handCount_filter_isSome] at hcm
        have hcs := handCount_set (getPlayer st1 pidx).hand pos (some drawn) hlt
        rw [hslot] at hcs
        simp only [optW] at hcs
        constructor
        · have := hr.1
          omega
        · rw [players_modifyPlayer_length, hr.2.1]
      · rw [if_neg hlt] at hok
        exact Except.noConfusion hok

theorem failed_multi_count (st : EngineSt) (pidx : Nat) (drawn : Card)
    (attempted : List Card) (hb : pidx < st.players.length) :
    cardCount (failed_multi_exchange st pidx drawn attempted) = cardCount st + 1
    ∧ (failed_multi_exchange st pidx drawn attempted).players.length
        = st.players.length := by
  have hb1 : pidx < (modifyPlayer st pidx (fun p =>
      { p with hand := setVisibleInHand p.hand (attempted.map (fun c => c.id)) })).players.length := by
    rw [players_modifyPlayer_length]
    exact hb
  have hc1 : cardCount (modifyPlayer st pidx (fun p =>
      { p with hand := setVisibleInHand p.hand (attempted.map (fun c => c.id)) }))
      = cardCount st :=
    cardCount_modifyPlayer_eq st pidx _ (fun p => handCount_setVisibleInHand p.hand _)
  have hc2 := cardCount_modifyPlayer (modifyPlayer st pidx (fun p =>
      { p with hand := setVisibleInHand p.hand (attempted.map (fun c => c.id)) })) pidx
      (fun p => { p with hand := p.hand ++ [some drawn] }) hb1
  simp only [handCount_append] at hc2
  rw [handCount_cons, handCount_nil] at hc2
  simp only [optW] at hc2
  have hb2 : pidx < (modifyPlayer (modifyPlayer st pidx (fun p =>
      { p with hand := setVisibleInHand p.hand (attempted.map (fun c => c.id)) })) pidx
      (fun p => { p with hand := p.hand ++ [some drawn] })).players.length := by
    rw [players_modifyPlayer_length]
    exact hb1
  by_cases h3 : 3 ≤ attempted.length
  · simp only [failed_multi_exchange, if_pos h3, deck_modifyPlayer]
    cases hdeck : st.main_deck with
    | nil =>
      dsimp only
      constructor
      · omega
      · rw [players_modifyPlayer_length, players_modifyPlayer_length]
    | cons pen deck1 =>
      dsimp only
      have hc3 := cardCount_modifyPlayer (modifyPlayer (modifyPlayer st pidx (fun p =>
          { p with hand := setVisibleInHand p.hand (attempted.map (fun c => c.id)) })) pidx
          (fun p => { p with hand := p.hand ++ [some drawn] })) pidx
          (fun p => { p with hand := p.hand ++ [some { pen with status := "HAND" }] }) hb2
      simp only [handCount_append] at hc3
      rw [handCount_cons, handCount_nil] at hc3
      simp only [optW] at hc3
      constructor
      · simp only [cardCount] at hc1 hc2 hc3 ⊢
        simp only [deck_modifyPlayer, pile_modifyPlayer, hdeck] at hc1 hc2 hc3 ⊢
        simp only [List.length_cons] at hc1 hc2 hc3 ⊢
        omega
      · simp only [players_modifyPlayer_length]
  · simp only [failed_multi_exchange, if_neg h3]
    constructor
    · omega
    · rw [players_modifyPlayer_length, players_modifyPlayer_length]

theorem keep_drawn_card_ok (st : EngineSt) (pidx : Nat) (drawn0 : Card)
    (d : TurnDecisions) (st' : EngineSt)
    (hok : keep_drawn_card st pidx drawn0 d = Except.ok st')
    (hb : pidx < st.players.length)
    (hcon : ∀ pos, d.new_card_pos = some pos →
        ∀ sel fs, selectCards (getPlayer st pidx).hand d.exchange_sel = Except.ok sel →
          free_slots_of (getPlayer st pidx).hand sel [] = some fs → pos ∈ fs) :
    cardCount st' = cardCount st + 1 ∧ st'.players.length = st.players.length := by
  simp only [keep_drawn_card] at hok
  cases hsel : selectCards (getPlayer st pidx).hand d.exchange_sel with
  | error e =>
    rw [hsel] at hok
    exact Except.noConfusion hok
  | ok sel =>
    rw [hsel] at hok
    dsimp only at hok
    by_cases hcons : check_card_list_consistency sel = true
    · rw [if_pos hcons] at hok
      exact perform_card_exchange_ok st pidx sel _ d st' hok hb
        (fun pos hp fs hfs => hcon pos hp sel fs hsel hfs)
    · rw [if_neg hcons] at hok
      injection hok with h0
      subst h0
      exact failed_multi_count st pidx _ sel hb

theorem handCount_map_visible (h : List (Option Card)) (cid : Nat) :
    handCount (h.map (fun s => match s with
      | some c => if c.id == cid then some { c with publicly_visible := true } else some c
      | none => none)) = handCount h := by
  induction h with
  | nil => rfl
  | cons a t ih =>
    rw [List.map_cons, handCount_cons, handCount_cons, ih]
    cases a with
    | none => rfl
    | some c =>
      simp only [optW]
      split
      · rfl
      · rename_i heq
        split at heq <;> simp at heq

theorem set_visible_by_id_count (st : EngineSt) (pidx : Nat) (cid : Nat) :
    cardCount (set_visible_by_id st pidx cid) = cardCount st
    ∧ (set_visible_by_id st pidx cid).players.length = st.players.length := by
  have hc1 : cardCount (modifyPlayer st pidx (fun p =>
      { p with hand := p.hand.map (fun s => match s with
          | some c => if c.id == cid then some { c with publicly_visible := true } else some c
          | none => none) })) = cardCount st :=
    cardCount_modifyPlayer_eq st pidx _ (fun p => handCount_map_visible p.hand cid)
  constructor
  · simp only [set_visible_by_id, cardCount, List.length_map] at hc1 ⊢
    simp only [deck_modifyPlayer, pile_modifyPlayer] at hc1 ⊢
    omega
  · simp only [set_visible_by_id, players_modifyPlayer_length]

theorem peak_ok (st : EngineSt) (pidx : Nat) (d : TurnDecisions) (st' : EngineSt)
    (hok : peak st pidx d = Except.ok st') (hb : pidx < st.players.length) :
    cardCount st' = cardCount st ∧ st'.players.length = st.players.length := by
  simp only [peak] at hok
  by_cases hlt : d.peek_pos < (getPlayer st pidx).hand.length
  · rw [if_pos hlt] at hok
    cases hslot : (getPlayer st pidx).hand.getD d.peek_pos none with
    | none =>
      rw [hslot] at hok
      exact Except.noConfusion hok
    | some c =>
      rw [hslot] at hok
      injection hok with h0
      subst h0
      have hcs := cardCount_set_slot st pidx d.peek_pos
        (some { c with known_to_owner := true }) hb hlt
      rw [hslot] at hcs
      simp only [optW] at hcs
      exact ⟨by omega, players_modifyPlayer_length st pidx _⟩
  · rw [if_neg hlt] at hok
    exact Except.noConfusion hok

theorem spy_ok (st : EngineSt) (pidx : Nat) (d : TurnDecisions) (st' : EngineSt)
    (hok : spy st pidx d = Except.ok st') :
    cardCount st' = cardCount st ∧ st'.players.length = st.players.length := by
  simp only [spy] at hok
  by_cases ho : d.spy_opp < st.players.length
  · rw [if_pos ho] at hok
    by_cases hlt : d.spy_pos < (getPlayer st d.spy_opp).hand.length
    · rw [if_pos hlt] at hok
      cases hslot : (getPlayer st d.spy_opp).hand.getD d.spy_pos none with
      | none =>
        rw [hslot] at hok
        exact Except.noConfusion hok
      | some c =>
        rw [hslot] at hok
        injection hok with h0
        subst h0
        have hcs := cardCount_set_slot st d.spy_opp d.spy_pos
          (some { c with known_to_other_players :=
            c.known_to_other_players ++ [(getPlayer st pidx).player_id] }) ho hlt
        rw [hslot] at hcs
        simp only [optW] at hcs
        exact ⟨by omega, players_modifyPlayer_length st d.spy_opp _⟩
    · rw [if_neg hlt] at hok
      exact Except.noConfusion hok
  · rw [if_neg ho] at hok
    exact Except.noConfusion hok

theorem swap_ok (st : EngineSt) (pidx : Nat) (d : TurnDecisions) (st' : EngineSt)
    (hok : swap_effect st pidx d = Except.ok st') :
    cardCount st' = cardCount st ∧ st'.players.length = st.players.length := by
  simp only [swap_effect] at hok
  split at hok
  case isFalse => exact Except.noConfusion hok
  case isTrue h1 =>
    obtain ⟨hb, ho⟩ := h1
    split at hok
    case isFalse => exact Except.noConfusion hok
    case isTrue h2 =>
      obtain ⟨hi, hj⟩ := h2
      set a := (getPlayer st pidx).hand.getD d.swap_own_idx none with hadef
      set b := (getPlayer st d.swap_opp).hand.getD d.swap_opp_idx none with hbdef
      set st1 := modifyPlayer st pidx (fun p => { p with hand := p.hand.set d.swap_own_idx b }) with hst1def
      set st2 := modifyPlayer st1 d.swap_opp (fun p => { p with hand := p.hand.set d.swap_opp_idx a }) with hst2def
      split at hok
      case h_1 => exact Except.noConfusion hok
      case h_2 opponents_card heq1 =>
        set oc1 := { opponents_card with known_to_owner := check_knowledge_of_card (getPlayer st2 d.swap_opp) opponents_card } with hoc1def
        set st3 := modifyPlayer st2 d.swap_opp (fun p => { p with hand := p.hand.set d.swap_opp_idx (some oc1) }) with hst3def
        split at hok
        case h_1 => exact Except.noConfusion hok
        case h_2 own_card heq2 =>
          set wc1 := { own_card with known_to_owner := check_knowledge_of_card (getPlayer st3 pidx) own_card } with hwc1def
          injection hok with h0
          subst h0
          have hlen1 : st1.players.length = st.players.length :=
            players_modifyPlayer_length st pidx _
          have hlen2 : st2.players.length = st.players.length := by
            rw [hst2def, players_modifyPlayer_length, hlen1]
          have hlen3 : st3.players.length = st.players.length := by
            rw [hst3def, players_modifyPlayer_length, hlen2]
          have hhl1 : (getPlayer st1 d.swap_opp).hand.length = (getPlayer st d.swap_opp).hand.length := by
            rw [hst1def]
            exact getPlayer_hand_length_modify_set st pidx d.swap_opp d.swap_own_idx b
          have hhl2 : (getPlayer st2 d.swap_opp).hand.length = (getPlayer st d.swap_opp).hand.length := by
            rw [hst2def, getPlayer_hand_length_modify_set, hhl1]
          have hhl3 : (getPlayer st3 pidx).hand.length = (getPlayer st pidx).hand.length := by
            rw [hst3def, getPlayer_hand_length_modify_set, hst2def,
              getPlayer_hand_length_modify_set, hst1def,
              getPlayer_hand_length_modify_set]
          have hE1 : cardCount st1 + optW a = cardCount st + optW b := by
            rw [hst1def, hadef]
            exact cardCount_set_slot st pidx d.swap_own_idx b hb hi
          have hs1 : (getPlayer st1 d.swap_opp).hand.getD d.swap_opp_idx none = b := by
            rw [hst1def]
            by_cases hpo : pidx = d.swap_opp
            · rw [← hpo, getPlayer_modifyPlayer_self st pidx _ hb]
              by_cases hij : d.swap_own_idx = d.swap_opp_idx
              · rw [← hij]
                exact getD_set_self _ _ _ _ hi
              · rw [getD_set_ne _ _ _ _ _ hij, hpo]
            · rw [getPlayer_modifyPlayer_ne st pidx d.swap_opp _ hpo]
          have hE2 : cardCount st2 + optW b = cardCount st1 + optW a := by
            rw [hst2def, ← hs1]
            exact cardCount_set_slot st1 d.swap_opp d.swap_opp_idx a
              (by rw [hlen1]; exact ho) (by rw [hhl1]; exact hj)
          have hE3 : cardCount st3 + 1 = cardCount st2 + 1 := by
            have h := cardCount_set_slot st2 d.swap_opp d.swap_opp_idx (some oc1)
              (by rw [hlen2]; exact ho) (by rw [hhl2]; exact hj)
            rw [heq1] at h
            simpa [optW, hst3def] using h
          have hE4 : cardCount (modifyPlayer st3 pidx (fun p => { p with hand := p.hand.set d.swap_own_idx (some wc1) })) + 1 = cardCount st3 + 1 := by
            have h := cardCount_set_slot st3 pidx d.swap_own_idx (some wc1)
              (by rw [hlen3]; exact hb) (by rw [hhl3]; exact hi)
            rw [heq2] at h
            simpa [optW] using h
          constructor
          · omega
          · rw [players_modifyPlayer_length, hlen3]

theorem call_kabo_ok (st : EngineSt) (pidx : Nat) (st' : EngineSt)
    (hok : call_kabo st pidx = Except.ok st') :
    cardCount st' = cardCount st ∧ st'.players.length = st.players.length := by
  simp only [call_kabo] at hok
  split at hok
  · exact Except.noConfusion hok
  · injection hok with h0
    subst h0
    exact ⟨cardCount_modifyPlayer_eq st pidx _ (fun p => rfl),
      players_modifyPlayer_length st pidx _⟩

theorem hit_deck_ok (st : EngineSt) (pidx : Nat) (d : TurnDecisions) (st' : EngineSt)
    (hok : hit_deck st pidx d = Except.ok st')
    (hb : pidx < st.players.length)
    (hcu : MAIN_DECK_CARD_DECISIONS.contains d.card_use = true)
    (hcon : ∀ pos, d.new_card_pos = some pos →
        ∀ sel fs, selectCards (getPlayer st pidx).hand d.exchange_sel = Except.ok sel →
          free_slots_of (getPlayer st pidx).hand sel [] = some fs → pos ∈ fs) :
    cardCount st' = cardCount st ∧ st'.players.length = st.players.length := by
  simp only [hit_deck] at hok
  cases hdk : st.main_deck with
  | nil =>
    rw [hdk] at hok
    exact Except.noConfusion hok
  | cons drawn deck1 =>
    rw [hdk] at hok
    dsimp only at hok
    have hcount1 : cardCount st = cardCount { st with main_deck := deck1 } + 1 := by
      simp only [cardCount, hdk, List.length_cons]
      omega
    split at hok
    case isTrue hk =>
      have hkk := keep_drawn_card_ok { st with main_deck := deck1 } pidx drawn d st'
        hok hb hcon
      exact ⟨by omega, hkk.2⟩
    case isFalse hk =>
      split at hok
      case isTrue hd2 =>
        injection hok with h0
        subst h0
        rw [cardCount_discard]
        exact ⟨by omega, rfl⟩
      case isFalse hd2 =>
        split at hok
        case isTrue he =>
          have hcount2 : cardCount (discard_card { st with main_deck := deck1 } drawn)
              = cardCount st := by
            rw [cardCount_discard]
            omega
          split at hok
          case h_1 heff =>
            have hp := peak_ok _ pidx d st' hok hb
            rw [hcount2] at hp
            exact hp
          case h_2 heff =>
            have hp := spy_ok _ pidx d st' hok
            rw [hcount2] at hp
            exact hp
          case h_3 heff =>
            have hp := swap_ok _ pidx d st' hok
            rw [hcount2] at hp
            exact hp
          case h_4 =>
            exact Except.noConfusion hok
        case isFalse he =>
          exfalso
          simp only [MAIN_DECK_CARD_DECISIONS, List.contains_cons,
            List.contains_nil, Bool.or_eq_true, beq_iff_eq] at hcu
          rcases hcu with h | h | h | h
          · exact hk (by simp [h])
          · exact hd2 (by simp [h])
          · exact he (by simp [h])
          · exact Bool.noConfusion h

theorem hit_discard_pile_ok (st : EngineSt) (pidx : Nat) (d : TurnDecisions)
    (st' : EngineSt)
    (hok : hit_discard_pile st pidx d = Except.ok st')
    (hb : pidx < st.players.length)
    (hcon : ∀ pos, d.new_card_pos = some pos →
        ∀ sel fs, selectCards (getPlayer st pidx).hand d.exchange_sel = Except.ok sel →
          free_slots_of (getPlayer st pidx).hand sel [] = some fs → pos ∈ fs) :
    cardCount st' = cardCount st ∧ st'.players.length = st.players.length := by
  simp only [hit_discard_pile] at hok
  cases hdp : st.discard_pile with
  | nil =>
    rw [hdp] at hok
    exact Except.noConfusion hok
  | cons top rest =>
    rw [hdp] at hok
    dsimp only at hok
    cases hkd : keep_drawn_card { st with discard_pile := rest } pidx top d with
    | error e =>
      rw [hkd] at hok
      exact Except.noConfusion hok
    | ok st2 =>
      rw [hkd] at hok
      dsimp only at hok
      injection hok with h0
      subst h0
      have hk := keep_drawn_card_ok { st with discard_pile := rest } pidx top d st2
        hkd hb hcon
      have hsv := set_visible_by_id_count st2 pidx top.id
      have hcount1 : cardCount st = cardCount { st with discard_pile := rest } + 1 := by
        simp only [cardCount, hdp, List.length_cons]
        omega
      exact ⟨by omega, by rw [hsv.2, hk.2]⟩

theorem perform_turn_ok (st : EngineSt) (pidx : Nat) (d : TurnDecisions)
    (st1 : EngineSt) (b : Bool)
    (hok : perform_turn st pidx d = Except.ok (st1, b))
    (hb : pidx < st.players.length)
    (hdec : decision_ok st pidx d = true) :
    cardCount st1 = cardCount st ∧ st1.players.length = st.players.length := by
  have hcu : MAIN_DECK_CARD_DECISIONS.contains d.card_use = true := by
    simp only [decision_ok, Bool.and_eq_true] at hdec
    exact hdec.1
  have hcon : ∀ pos, d.new_card_pos = some pos →
      ∀ sel fs, selectCards (getPlayer st pidx).hand d.exchange_sel = Except.ok sel →
        free_slots_of (getPlayer st pidx).hand sel [] = some fs → pos ∈ fs := by
    intro pos hp sel fs hsel hfs
    simp only [decision_ok, Bool.and_eq_true] at hdec
    have h2 := hdec.2
    rw [hp] at h2
    dsimp only at h2
    rw [hsel] at h2
    dsimp only at h2
    rw [hfs] at h2
    dsimp only at h2
    simpa using h2
  simp only [perform_turn] at hok
  cases hdp : st.discard_pile with
  | nil =>
    rw [hdp] at hok
    exact Except.noConfusion hok
  | cons c0 rest =>
    rw [hdp] at hok
    dsimp only at hok
    split at hok
    case isTrue hkb =>
      split at hok
      case isTrue hkc =>
        cases hhd : hit_deck st pidx d with
        | error e =>
          rw [hhd] at hok
          exact Except.noConfusion hok
        | ok s =>
          rw [hhd] at hok
          dsimp only at hok
          simp only [Except.ok.injEq, Prod.mk.injEq] at hok
          obtain ⟨h1, h2⟩ := hok
          subst h1
          exact hit_deck_ok st pidx d s hhd hb hcu hcon
      case isFalse hkc =>
        cases hck : call_kabo st pidx with
        | error e =>
          rw [hck] at hok
          exact Except.noConfusion hok
        | ok s =>
          rw [hck] at hok
          dsimp only at hok
          simp only [Except.ok.injEq, Prod.mk.injEq] at hok
          obtain ⟨h1, h2⟩ := hok
          subst h1
          exact call_kabo_ok st pidx s hck
    case isFalse hkb =>
      split at hok
      case isTrue hhd0 =>
        cases hhd : hit_deck st pidx d with
        | error e =>
          rw [hhd] at hok
          exact Except.noConfusion hok
        | ok s =>
          rw [hhd] at hok
          dsimp only at hok
          simp only [Except.ok.injEq, Prod.mk.injEq] at hok
          obtain ⟨h1, h2⟩ := hok
          subst h1
          exact hit_deck_ok st pidx d s hhd hb hcu hcon
      case isFalse hhd0 =>
        split at hok
        case isTrue hhp0 =>
          cases hhp : hit_discard_pile st pidx d with
          | error e =>
            rw [hhp] at hok
            exact Except.noConfusion hok
          | ok s =>
            rw [hhp] at hok
            dsimp only at hok
            simp only [Except.ok.injEq, Prod.mk.injEq] at hok
            obtain ⟨h1, h2⟩ := hok
            subst h1
            exact hit_discard_pile_ok st pidx d s hhp hb hcon
        case isFalse hhp0 =>
          exact Except.noConfusion hok

theorem playLoop_conserves (ds : List TurnDecisions) :
    ∀ (st : EngineSt) (t c : Nat) (a : Bool) (st' : EngineSt) (n : Nat),
      decisions_ok st t ds = true →
      0 < st.players.length →
      playLoop st t c a ds = Except.ok (st', n) →
      cardCount st' = cardCount st ∧ st'.players.length = st.players.length := by
  induction ds with
  | nil =>
    intro st t c a st' n hdec hN hok
    simp only [playLoop, Except.ok.injEq, Prod.mk.injEq] at hok
    obtain ⟨h1, h2⟩ := hok
    subst h1
    exact ⟨rfl, rfl⟩
  | cons d rest ih =>
    intro st t c a st' n hdec hN hok
    simp only [decisions_ok, Bool.and_eq_true] at hdec
    obtain ⟨hd1, hd2⟩ := hdec
    by_cases hdeck : st.main_deck.isEmpty = true
    · simp only [playLoop, hdeck, if_true, Except.ok.injEq, Prod.mk.injEq] at hok
      obtain ⟨h1, h2⟩ := hok
      subst h1
      exact ⟨rfl, rfl⟩
    · by_cases hc : (c == 0) = true
      · simp only [playLoop, hdeck, Bool.false_eq_true, if_false, hc, if_true,
          Except.ok.injEq, Prod.mk.injEq] at hok
        obtain ⟨h1, h2⟩ := hok
        subst h1
        exact ⟨rfl, rfl⟩
      · simp only [playLoop, hdeck, hc, Bool.false_eq_true, if_false] at hok
        cases hpt : perform_turn st (t % st.players.length) d with
        | error e =>
          rw [hpt] at hok
          exact Except.noConfusion hok
        | ok pr =>
          obtain ⟨s1, b1⟩ := pr
          rw [hpt] at hok
          dsimp only at hok
          have hpo := perform_turn_ok st (t % st.players.length) d s1 b1 hpt
            (Nat.mod_lt t hN) hd1
          rw [hpt] at hd2
          dsimp only at hd2
          cases hrec : playLoop (if b1 then { s1 with kabo_called := true } else s1)
              (t + 1) (if a || b1 then c - 1 else c) (a || b1) rest with
          | error e =>
            rw [hrec] at hok
            exact Except.noConfusion hok
          | ok pr2 =>
            obtain ⟨sF, m⟩ := pr2
            rw [hrec] at hok
            simp only [Except.ok.injEq, Prod.mk.injEq] at hok
            obtain ⟨h1, h2⟩ := hok
            subst h1
            have hcnt2 : cardCount (if b1 then { s1 with kabo_called := true } else s1)
                = cardCount s1 := by
              cases b1 <;> rfl
            have hlen2 : (if b1 then { s1 with kabo_called := true } else s1).players.length
                = s1.players.length := by
              cases b1 <;> rfl
            have hih := ih (if b1 then { s1 with kabo_called := true } else s1)
              (t + 1) (if a || b1 then c - 1 else c) (a || b1) sF m hd2
              (by rw [hlen2, hpo.2]; exact hN) hrec
            exact ⟨by rw [hih.1, hcnt2, hpo.1], by rw [hih.2, hlen2, hpo.2]⟩

theorem deal_n_ok (n : Nat) :
    ∀ (deck : List Card) (hand : List (Option Card)) (deck1 : List Card)
      (hand1 : List (Option Card)),
      deal_n deck hand n = Except.ok (deck1, hand1) →
      deck.length = deck1.length + n ∧ handCount hand1 = handCount hand + n := by
  induction n with
  | zero =>
    intro deck hand deck1 hand1 hok
    simp only [deal_n, Except.ok.injEq, Prod.mk.injEq] at hok
    obtain ⟨h1, h2⟩ := hok
    subst h1
    subst h2
    exact ⟨rfl, rfl⟩
  | succ m ih =>
    intro deck hand deck1 hand1 hok
    simp only [deal_n] at hok
    cases deck with
    | nil =>
      simp only [popDeck] at hok
      exact Except.noConfusion hok
    | cons c r =>
      simp only [popDeck] at hok
      have := ih r (hand ++ [some { c with status := "HAND" }]) deck1 hand1 hok
      rw [handCount_append, handCount_cons, handCount_nil] at this
      simp only [optW] at this
      exact ⟨by simp only [List.length_cons]; omega, by omega⟩

theorem deal_all_ok :
    ∀ (ps : List PlayerSt) (deck : List Card) (deck1 : List Card) (ps1 : List PlayerSt),
      deal_all deck ps = Except.ok (deck1, ps1) →
      deck.length = deck1.length + CARDS_PER_PLAYER * ps.length
      ∧ ps1.length = ps.length
      ∧ (ps1.map (fun p => handCount p.hand)).sum = CARDS_PER_PLAYER * ps.length
      ∧ ∀ q ∈ ps1, handCount q.hand = CARDS_PER_PLAYER := by
  intro ps
  induction ps with
  | nil =>
    intro deck deck1 ps1 hok
    simp only [deal_all, Except.ok.injEq, Prod.mk.injEq] at hok
    obtain ⟨h1, h2⟩ := hok
    subst h1
    subst h2
    simp
  | cons p rest ih =>
    intro deck deck1 ps1 hok
    simp only [deal_all] at hok
    cases hdn : deal_n deck [] CARDS_PER_PLAYER with
    | error e =>
      rw [hdn] at hok
      exact Except.noConfusion hok
    | ok pr =>
      obtain ⟨deckA, hand⟩ := pr
      rw [hdn] at hok
      dsimp only at hok
      cases hda : deal_all deckA rest with
      | error e =>
        rw [hda] at hok
        exact Except.noConfusion hok
      | ok pr2 =>
        obtain ⟨deckB, psB⟩ := pr2
        rw [hda] at hok
        simp only [Except.ok.injEq, Prod.mk.injEq] at hok
        obtain ⟨h1, h2⟩ := hok
        subst h1
        subst h2
        have hn := deal_n_ok CARDS_PER_PLAYER deck [] deckA hand hdn
        have hrest := ih deckA deckB psB hda
        rw [handCount_nil] at hn
        refine ⟨?_, ?_, ?_, ?_⟩
        · simp only [List.length_cons, CARDS_PER_PLAYER] at hn hrest ⊢
          omega
        · simp only [List.length_cons, hrest.2.1]
        · simp only [List.map_cons, List.sum_cons, List.length_cons, CARDS_PER_PLAYER]
            at hn hrest ⊢
          omega
        · intro q hq
          rcases List.mem_cons.mp hq with h | h
          · subst h
            simp only
            omega
          · exact hrest.2.2.2 q h

theorem round_init_ok (cards : List Card) (players : List PlayerSt) (s : Nat)
    (st0 : EngineSt)
    (hok : round_init cards players s = Except.ok st0) :
    st0.main_deck.length + (4 * players.length + 1) = cards.length
    ∧ st0.discard_pile.length = 1
    ∧ cardCount st0 = cards.length
    ∧ st0.players.length = players.length
    ∧ (∀ q ∈ st0.players, handCount q.hand = 4) := by
  simp only [round_init] at hok
  cases hda : deal_all cards ((players.drop s ++ players.take s).map
      (fun p => { p with hand := ([] : List (Option Card)), called_kabo := false })) with
  | error e =>
    rw [hda] at hok
    exact Except.noConfusion hok
  | ok pr =>
    obtain ⟨deck1, players1⟩ := pr
    rw [hda] at hok
    dsimp only at hok
    cases deck1 with
    | nil =>
      simp only [popDeck] at hok
      exact Except.noConfusion hok
    | cons fd deck2 =>
      simp only [popDeck] at hok
      injection hok with h0
      subst h0
      have hall := deal_all_ok _ cards (fd :: deck2) players1 hda
      have hreslen : ((players.drop s ++ players.take s).map
          (fun p => { p with hand := ([] : List (Option Card)), called_kabo := false })).length
          = players.length := by
        simp only [List.length_map, List.length_append, List.length_drop,
          List.length_take]
        omega
      rw [hreslen] at hall
      simp only [CARDS_PER_PLAYER] at hall
      refine ⟨?_, rfl, ?_, ?_, ?_⟩
      · simp only [discard_card, List.length_cons] at hall ⊢
        omega
      · simp only [cardCount, discard_card, List.length_cons] at hall ⊢
        simp only [List.length_nil] at hall ⊢
        omega
      · simp only [discard_card] at hall ⊢
        exact hall.2.1
      · intro q hq
        simp only [discard_card] at hq
        exact hall.2.2.2 q hq

/-! Scoring lemmas. -/

theorem mapOption_eq_map {α β : Type} (f : α → Option β) (g : α → β) (l : List α)
    (h : ∀ x ∈ l, f x = some (g x)) : mapOption f l = some (l.map g) := by
  induction l with
  | nil => rfl
  | cons a t ih =>
    have ha := h a (by simp)
    have ht := ih (fun x hx => h x (by simp [hx]))
    simp [mapOption, ha, ht]

theorem mapOption_id_all_isSome (h : List (Option Card))
    (hall : h.all (fun s => s.isSome) = true) :
    mapOption id h = some (h.filterMap id) := by
  induction h with
  | nil => rfl
  | cons a t ih =>
    simp only [List.all_cons, Bool.and_eq_true] at hall
    cases a with
    | none => simp at hall
    | some c =>
      have ht := ih hall.2
      simp [mapOption, ht, List.filterMap_cons]

theorem hand_sum_eval (h : List (Option Card))
    (hall : h.all (fun s => s.isSome) = true) :
    hand_sum h = some (((h.filterMap id).map (fun c => c.value)).sum) := by
  simp [hand_sum, mapOption_id_all_isSome h hall]

theorem peqB_refl (a : PlayerSt) : peqB a a = true := by
  simp [peqB]

theorem get_players_score_fuel_two (players : List PlayerSt) (q : PlayerSt) :
    get_players_score_fuel 2 players q
      = match hand_sum q.hand with
        | none => none
        | some sum_hand =>
          if !q.called_kabo then some sum_hand
          else
            match mapOption (get_players_score_fuel 1 players)
                (players.filter (fun plr => !(peqB plr q))) with
            | none => none
            | some other_player_scores =>
              match other_player_scores.min? with
              | none => none
              | some m =>
                if sum_hand ≤ m then some 0 else some (sum_hand + KABO_MALUS) := rfl

/-- Evaluation of `get_players_score_in_round` (fuel 2) under the
engine invariants: the player's own hand is hole-free, and either the
player did not call Kabo, or the other players (who did not call) exist
and have hole-free hands. -/
theorem get_score_eval (players : List PlayerSt) (q : PlayerSt)
    (hq : q.hand.all (fun s => s.isSome) = true)
    (hcase : q.called_kabo = false
      ∨ ((∃ m, minOthers players q = some m)
         ∧ ∀ r ∈ players, peqB r q = false →
             r.called_kabo = false ∧ r.hand.all (fun s => s.isSome) = true)) :
    get_players_score_in_round players q = some (kaboRoundScore players q) := by
  have hsum := hand_sum_eval q.hand hq
  by_cases hck : q.called_kabo = false
  · simp [get_players_score_in_round, get_players_score_fuel, hsum, hck,
      kaboRoundScore, handSumV, handCards]
  · have hck' : q.called_kabo = true := by
      cases hqq : q.called_kabo
      · exact absurd hqq hck
      · rfl
    rcases hcase with hc | ⟨⟨m, hm⟩, hothers⟩
    · exact absurd hc hck
    · have hmap : mapOption (get_players_score_fuel 1 players)
          (players.filter (fun plr => !(peqB plr q)))
          = some ((players.filter (fun plr => !(peqB plr q))).map handSumV) := by
        apply mapOption_eq_map
        intro r hr
        rw [List.mem_filter] at hr
        have hrq : peqB r q = false := by
          have := hr.2
          simp only [Bool.not_eq_true'] at this
          exact this
        have ⟨hrck, hrhand⟩ := hothers r hr.1 hrq
        have hrsum := hand_sum_eval r.hand hrhand
        simp [get_players_score_fuel, hrsum, hrck, handSumV, handCards]
      have hmin : ((players.filter (fun plr => !(peqB plr q))).map handSumV).min? = some m := hm
      rw [show get_players_score_in_round players q
            = get_players_score_fuel 2 players q from rfl,
          get_players_score_fuel_two, hsum]
      dsimp only
      rw [hck']
      simp only [Bool.not_true, Bool.false_eq_true, if_false]
      rw [hmap]
      dsimp only
      rw [hmin]
      simp only [kaboRoundScore, hck', Bool.not_true, Bool.false_eq_true, if_false, hm]
      rw [show handSumV q = ((List.filterMap id q.hand).map (fun c => c.value)).sum from rfl,
          apply_ite some]

/-- Evaluation of the per-player Kamikadze test on a hole-free hand. -/
theorem kamikadze_hand_eval (p : PlayerSt)
    (hp : p.hand.all (fun s => s.isSome) = true) :
    kamikadze_hand p = some (kamikazeQual p) := by
  have hmo := mapOption_id_all_isSome p.hand hp
  by_cases hlen : p.hand.length = 4
  · simp [kamikadze_hand, NUMBER_OF_CARDS_FOR_KAMIKADZE, hlen, hmo, KAMIKADZE_VALUES,
      kamikazeQual, handCards, Bool.and_assoc]
  · simp [kamikadze_hand, NUMBER_OF_CARDS_FOR_KAMIKADZE, hlen, kamikazeQual]

theorem check_kamikadze_finds (players : List PlayerSt) (k : PlayerSt)
    (hall : ∀ q ∈ players, q.hand.all (fun s => s.isSome) = true)
    (hk : k ∈ players) (hq : kamikazeQual k = true)
    (huniq : ∀ q ∈ players, kamikazeQual q = true → q = k) :
    check_kamikadze players = some (some k) := by
  induction players with
  | nil => simp at hk
  | cons p rest ih =>
    have hph := kamikadze_hand_eval p (hall p (by simp))
    by_cases hpq : kamikazeQual p = true
    · have : p = k := huniq p (by simp) hpq
      subst this
      simp [check_kamikadze, hph, hpq]
    · have hpq' : kamikazeQual p = false := by
        cases hx : kamikazeQual p
        · rfl
        · exact absurd hx hpq
      have hkrest : k ∈ rest := by
        rcases List.mem_cons.mp hk with h1 | h2
        · exact absurd (h1 ▸ hq) (h1 ▸ hpq)
        · exact h2
      have := ih (fun q hx => hall q (by simp [hx])) hkrest
        (fun q hx hqx => huniq q (by simp [hx]) hqx)
      simp [check_kamikadze, hph, hpq', this]

theorem check_kamikadze_none (players : List PlayerSt)
    (hall : ∀ q ∈ players, q.hand.all (fun s => s.isSome) = true)
    (hnone : ∀ q ∈ players, kamikazeQual q = false) :
    check_kamikadze players = some none := by
  induction players with
  | nil => rfl
  | cons p rest ih =>
    have hph := kamikadze_hand_eval p (hall p (by simp))
    have hpq := hnone p (by simp)
    have := ih (fun q hx => hall q (by simp [hx])) (fun q hx => hnone q (by simp [hx]))
    simp [check_kamikadze, hph, hpq, this]

/-! Claim theorems. -/

/-- C1: evaluation of `swap_effect` (the embedding of `Player.swap`) at
the concrete failing input.  Player B (id 1) swaps and receives card
id 10, which B had spied (`1` is in its `known_to_other_players`), yet
the card ends with `known_to_owner = false`; symmetrically player A
receives card id 11, which A never spied, yet it ends with
`known_to_owner = true` — knowledge is preserved from the old owner
instead of recomputed for the new one, contradicting the claim. -/
theorem swap_keeps_stale_owner_knowledge :
    ((getPlayer (getOk (swap_effect swapStateAB 1 swapDecision)) 1).hand.getD 0 none).map
        (fun c => c.known_to_owner) = some false
  ∧ ((getPlayer (getOk (swap_effect swapStateAB 1 swapDecision)) 1).hand.getD 0 none).map
        (fun c => c.known_to_other_players) = some [1]
  ∧ ((getPlayer (getOk (swap_effect swapStateAB 1 swapDecision)) 1).hand.getD 0 none).map
        (fun c => c.id) = some 10
  ∧ ((getPlayer (getOk (swap_effect swapStateAB 1 swapDecision)) 0).hand.getD 0 none).map
        (fun c => c.known_to_owner) = some true
  ∧ ((getPlayer (getOk (swap_effect swapStateAB 1 swapDecision)) 0).hand.getD 0 none).map
        (fun c => c.known_to_other_players) = some ([] : List Nat)
  ∧ ((getPlayer (getOk (swap_effect swapStateAB 1 swapDecision)) 0).hand.getD 0 none).map
        (fun c => c.id) = some 11 := by
  decide

/-- C3: evaluation of the keep/exchange sub-protocol (the embedding of
`Player.perform_card_exchange` reached through `Player.perform_turn`)
at the concrete failing input.  The player exchanges two cards of equal
value and declines the placement: the drawn card goes to the discard
pile (its id 90 tops the pile), but the two `None` placeholders are left
in the hand at the end of the turn (the compaction only runs in the
position-chosen branch), and the subsequent score read of that hand
crashes (`hand_sum = none`). -/
theorem declined_exchange_leaves_holes :
    (stOf (perform_turn exchangeDeclineState 0 exchangeDeclineDecision)).2 = false
  ∧ (getPlayer (stOf (perform_turn exchangeDeclineState 0 exchangeDeclineDecision)).1 0).hand.getD 0 none
      = none
  ∧ (getPlayer (stOf (perform_turn exchangeDeclineState 0 exchangeDeclineDecision)).1 0).hand.getD 1 none
      = none
  ∧ (getPlayer (stOf (perform_turn exchangeDeclineState 0 exchangeDeclineDecision)).1 0).hand.length = 4
  ∧ handCount (getPlayer (stOf (perform_turn exchangeDeclineState 0 exchangeDeclineDecision)).1 0).hand = 2
  ∧ ((stOf (perform_turn exchangeDeclineState 0 exchangeDeclineDecision)).1.discard_pile.map
        (fun c => c.id)) = [90, 2, 1, 91]
  ∧ hand_sum (getPlayer (stOf (perform_turn exchangeDeclineState 0 exchangeDeclineDecision)).1 0).hand
      = none := by
  decide

/-- C10: evaluation of the playing loop at the concrete failing input.
The discard pile holds one card; the first player draws it and resolves
the keep sub-protocol through the failed-multi-exchange path, which
discards nothing, so the turn ends with an empty discard pile; the next
turn's unconditional read of the top of the discard pile then fails with
`IndexError`. -/
theorem discard_pile_read_fails :
    (runOf (playLoop pileExhaustState 0 2 false [pileExhaustDecision])).1.discard_pile = []
  ∧ (runOf (playLoop pileExhaustState 0 2 false [pileExhaustDecision])).2 = 1
  ∧ playLoop pileExhaustState 0 2 false [pileExhaustDecision, baseDecision]
      = Except.error "IndexError: discard pile empty at turn start" :=
  ⟨by decide, by decide, by rfl⟩

/-- C2 counterexample: with `kabo_called = true` a `CALL_KABO` wish does
NOT fail with a duplicate-Kabo error: `perform_turn` succeeds, reports
no Kabo call, and the player draws from the deck instead (the deck
shrinks and the drawn card is discarded). -/
theorem duplicate_kabo_is_not_an_error :
    (perform_turn dupKaboState 0 dupKaboDecision).isOk = true
  ∧ (stOf (perform_turn dupKaboState 0 dupKaboDecision)).2 = false
  ∧ (stOf (perform_turn dupKaboState 0 dupKaboDecision)).1.main_deck.length = 1
  ∧ (getPlayer (stOf (perform_turn dupKaboState 0 dupKaboDecision)).1 0).called_kabo = false := by
  decide

/-- C9 counterexample: player A (listed first) has 105 points and player
B exactly 100 for the first time.  The claim says B's score is snapped
to 50 and (for the 100-case) the match continues; in fact Python's
short-circuit `and` skips `reached_score_100` once `_play_next_round` is
false, so B's score stays 100, B's `matched_100` stays false, and the
match ends. -/
theorem score_100_not_snapped_after_bust :
    check_scores_after_round [over100Player, at100Player] true
      = ([over100Player, at100Player], false) := by
  decide

/-- C9 (amended): after each round, provided no player's score exceeds
the target and no player is at the target for a second time, every
player whose cumulative score equals exactly 100 for the first time has
their score snapped to 50 (and `matched_100` set) and the match
continues; and whenever some player's score strictly exceeds 100, or
some player sits at exactly 100 with `matched_100` already set, the
match ends — but in that ending case a 100-scorer listed after the
match-ending player is NOT snapped (Python's short-circuit `and`). -/
theorem score_check_target_rules (players : List PlayerSt) :
    ((∀ q ∈ players, q.players_game_score ≤ TARGET_POINT_VALUE
        ∧ (q.players_game_score = TARGET_POINT_VALUE → q.matched_100 = false)) →
      check_scores_after_round players true
        = (players.map (fun q =>
            if q.players_game_score == TARGET_POINT_VALUE then
              { q with matched_100 := true,
                       players_game_score := POINT_VALUE_AFTER_HITTING_TARGET }
            else q), true))
  ∧ ((∃ q ∈ players, TARGET_POINT_VALUE < q.players_game_score
        ∨ (q.players_game_score = TARGET_POINT_VALUE ∧ q.matched_100 = true)) →
      (check_scores_after_round players true).2 = false) := by
  constructor
  · intro hall
    induction players with
    | nil => rfl
    | cons p rest ih =>
      have hp := hall p (by simp)
      have hrest : ∀ q ∈ rest, q.players_game_score ≤ TARGET_POINT_VALUE
          ∧ (q.players_game_score = TARGET_POINT_VALUE → q.matched_100 = false) :=
        fun q hq => hall q (by simp [hq])
      have ihr := ih hrest
      by_cases h1 : p.players_game_score = TARGET_POINT_VALUE
      · have hm : p.matched_100 = false := hp.2 h1
        simp only [check_scores_after_round, reached_score_100, List.map_cons,
          h1, hm, beq_self_eq_true, if_true, Bool.false_eq_true, ite_false]
        rw [ihr]
      · have h2 : ¬ TARGET_POINT_VALUE < p.players_game_score := by
          have := hp.1; omega
        have h1b : (p.players_game_score == TARGET_POINT_VALUE) = false := by
          simpa using h1
        simp only [check_scores_after_round, List.map_cons, h1b, Bool.false_eq_true,
          if_false, if_neg h2]
        rw [ihr]
  · intro hex
    induction players with
    | nil => simp at hex
    | cons p rest ih =>
      rcases hex with ⟨q, hq, hcond⟩
      rcases List.mem_cons.mp hq with hq1 | hq2
      · subst hq1
        rcases hcond with hgt | ⟨h100, hm⟩
        · have h1b : (q.players_game_score == TARGET_POINT_VALUE) = false := by
            simp; omega
          simp only [check_scores_after_round, h1b, Bool.false_eq_true, if_false,
            if_pos hgt]
          exact check_scores_false_absorbs rest
        · simp only [check_scores_after_round, h100, beq_self_eq_true, if_true,
            reached_score_100, hm, ite_true]
          exact check_scores_false_absorbs rest
      · have hrec := ih ⟨q, hq2, hcond⟩
        by_cases h1 : p.players_game_score = TARGET_POINT_VALUE
        · by_cases hm : p.matched_100 = true
          · simp only [check_scores_after_round, h1, beq_self_eq_true, if_true,
              reached_score_100, hm, ite_true]
            exact check_scores_false_absorbs rest
          · have hm' : p.matched_100 = false := by
              cases hpm : p.matched_100
              · rfl
              · exact absurd hpm hm
            simp only [check_scores_after_round, h1, beq_self_eq_true, if_true,
              reached_score_100, hm', Bool.false_eq_true, ite_false]
            exact hrec
        · have h1b : (p.players_game_score == TARGET_POINT_VALUE) = false := by
            simpa using h1
          by_cases h2 : TARGET_POINT_VALUE < p.players_game_score
          · simp only [check_scores_after_round, h1b, Bool.false_eq_true, if_false,
              if_pos h2]
            exact check_scores_false_absorbs rest
          · simp only [check_scores_after_round, h1b, Bool.false_eq_true, if_false,
              if_neg h2]
            exact hrec

/-- C9 witness: a lone first-time 100-scorer is snapped to 50 and the
match continues; and with a 105-scorer present the match ends. -/
theorem score_check_target_rules_witness :
    check_scores_after_round [at100Player] true
      = ([{ at100Player with matched_100 := true, players_game_score := 50 }], true)
  ∧ (check_scores_after_round [over100Player, at100Player] true).2 = false := by
  constructor
  · have h := (score_check_target_rules [at100Player]).1 (by decide)
    rw [h]
    decide
  · exact (score_check_target_rules [over100Player, at100Player]).2
      ⟨over100Player, by simp, Or.inl (by decide)⟩

/-- C2 (amended): choosing `CALL_KABO` when Kabo was already called this
round does not fail — `perform_turn` silently falls back to a deck draw
and reports no Kabo call; the duplicate-Kabo engine check lives in
`call_kabo` alone, which `perform_turn` never reaches in that state.
When Kabo has not yet been called, the turn sets the acting player's
`called_kabo` flag and returns `true`, upon which the playing loop sets
the round's `kabo_called` flag and starts the countdown. -/
theorem kabo_turn_behaviour (st : EngineSt) (pidx : Nat) (d : TurnDecisions)
    (c : Card) (pile : List Card)
    (hpile : st.discard_pile = c :: pile) (hplay : d.play = "KABO") :
    (st.kabo_called = true →
        perform_turn st pidx d
          = (match hit_deck st pidx d with
             | Except.ok s => Except.ok (s, false)
             | Except.error e => Except.error e)
      ∧ call_kabo st pidx
          = Except.error "ValueError: Kabo cannot be called twice in the same round!")
  ∧ (st.kabo_called = false →
        perform_turn st pidx d
          = Except.ok (modifyPlayer st pidx (fun p => { p with called_kabo := true }), true))
  ∧ (st.kabo_called = false → ∀ t counter ds,
        st.main_deck.isEmpty = false → (counter == 0) = false →
        pidx = t % st.players.length →
        playLoop st t counter false (d :: ds)
          = (match playLoop
                { modifyPlayer st pidx (fun p => { p with called_kabo := true }) with
                  kabo_called := true }
                (t + 1) (counter - 1) true ds with
             | Except.error e => Except.error e
             | Except.ok (stF, n) => Except.ok (stF, n + 1))) := by
  have hturnT : st.kabo_called = true →
      perform_turn st pidx d
        = (match hit_deck st pidx d with
           | Except.ok s => Except.ok (s, false)
           | Except.error e => Except.error e) := by
    intro hkc
    obtain ⟨deck, pile0, kc, ps⟩ := st
    simp only at hkc hpile
    subst hkc
    subst hpile
    simp only [perform_turn, hplay]
    simp only [beq_self_eq_true, if_true]
    cases hit_deck
        { main_deck := deck, discard_pile := c :: pile, kabo_called := true,
          players := ps } pidx d <;> rfl
  have hturnF : st.kabo_called = false →
      perform_turn st pidx d
        = Except.ok (modifyPlayer st pidx (fun p => { p with called_kabo := true }), true) := by
    intro hkc
    obtain ⟨deck, pile0, kc, ps⟩ := st
    simp only at hkc hpile
    subst hkc
    subst hpile
    simp [perform_turn, hplay, call_kabo]
  refine ⟨fun hkc => ⟨hturnT hkc, ?_⟩, hturnF, ?_⟩
  · simp [call_kabo, hkc]
  · intro hkc t counter ds hdeck hcnt hpidx
    subst hpidx
    have hstep := hturnF hkc
    simp only [playLoop, hdeck, hcnt, Bool.false_eq_true, if_false, hstep, if_true,
      Bool.false_or]

/-- C2 witness: at the concrete duplicate-Kabo state the turn equals the
fallback deck draw and `call_kabo` raises; at the same state with the
flag cleared, the turn succeeds, flags the player, and the loop
continues with the round flag set. -/
theorem kabo_turn_behaviour_witness :
    (perform_turn dupKaboState 0 dupKaboDecision
        = (match hit_deck dupKaboState 0 dupKaboDecision with
           | Except.ok s => Except.ok (s, false)
           | Except.error e => Except.error e)
      ∧ call_kabo dupKaboState 0
          = Except.error "ValueError: Kabo cannot be called twice in the same round!")
  ∧ perform_turn { dupKaboState with kabo_called := false } 0 dupKaboDecision
      = Except.ok (modifyPlayer { dupKaboState with kabo_called := false } 0
          (fun p => { p with called_kabo := true }), true) :=
  ⟨(kabo_turn_behaviour dupKaboState 0 dupKaboDecision (mkC 2 91) [] rfl rfl).1 rfl,
   (kabo_turn_behaviour { dupKaboState with kabo_called := false } 0 dupKaboDecision
      (mkC 2 91) [] rfl rfl).2.1 rfl⟩

theorem map_congr_mem {α β : Type} (l : List α) (f g : α → β)
    (h : ∀ a ∈ l, f a = g a) : l.map f = l.map g := by
  induction l with
  | nil => rfl
  | cons a t ih =>
    simp only [List.map_cons, h a (by simp), ih (fun x hx => h x (by simp [hx]))]

/-- C5: round scoring (no Kamikaze).  A player who did not call Kabo
scores their hand sum; the caller scores 0 when their hand sum is at
most the minimum hand sum among the other players (a tie succeeds), and
otherwise scores their hand sum plus the malus of 10. -/
theorem round_scoring (players : List PlayerSt) (p : PlayerSt) (m : Nat) :
    (∀ q, q.hand.all (fun s => s.isSome) = true → q.called_kabo = false →
       get_players_score_in_round players q = some (handSumV q))
  ∧ (p.called_kabo = true →
     p.hand.all (fun s => s.isSome) = true →
     (∀ r ∈ players, peqB r p = false →
        r.called_kabo = false ∧ r.hand.all (fun s => s.isSome) = true) →
     minOthers players p = some m →
     get_players_score_in_round players p
       = some (if handSumV p ≤ m then 0 else handSumV p + KABO_MALUS)) := by
  constructor
  · intro q hqh hqc
    have h := get_score_eval players q hqh (Or.inl hqc)
    rw [h]
    simp [kaboRoundScore, hqc]
  · intro hpc hph hothers hm
    have h := get_score_eval players p hph (Or.inr ⟨⟨m, hm⟩, hothers⟩)
    rw [h]
    simp [kaboRoundScore, hpc, hm]

/-- C5 witness: the caller with hand `[1, 2]` against an opponent with
hand `[5, 5]` scores 0 while the opponent scores 10. -/
theorem round_scoring_witness :
    get_players_score_in_round [scoreCaller, scoreOpp] scoreOpp = some 10
  ∧ get_players_score_in_round [scoreCaller, scoreOpp] scoreCaller = some 0 := by
  constructor
  · have h := (round_scoring [scoreCaller, scoreOpp] scoreCaller 10).1 scoreOpp
      (by decide) (by decide)
    rw [h]
    decide
  · have h := (round_scoring [scoreCaller, scoreOpp] scoreCaller 10).2
      (by decide) (by decide) (by decide) (by decide)
    rw [h]
    decide

/-- C6: cumulative score update at round end.  When exactly one player
holds a Kamikaze hand (exactly 4 cards with at least two 12s and two
13s), that player's cumulative score is unchanged and every other
player's grows by exactly 50, regardless of any Kabo call; otherwise
every player's cumulative score grows by their Kabo-based round
score. -/
theorem kamikaze_scoring (players : List PlayerSt) (k : PlayerSt) :
    ((∀ q ∈ players, q.hand.all (fun s => s.isSome) = true) →
     k ∈ players → kamikazeQual k = true →
     (∀ q ∈ players, kamikazeQual q = true → q = k) →
     (∀ q ∈ players, peqB q k = true → q = k) →
     update_players_game_scores players
       = some (players.map (fun q =>
           if q = k then q
           else { q with players_game_score := q.players_game_score + KAMIKADZE_PENALTY })))
  ∧ ((∀ q ∈ players, q.hand.all (fun s => s.isSome) = true) →
     (∀ q ∈ players, kamikazeQual q = false) →
     (∀ q ∈ players, q.called_kabo = true →
        (minOthers players q).isSome = true
        ∧ ∀ r ∈ players, peqB r q = false → r.called_kabo = false) →
     update_players_game_scores players
       = some (players.map (fun q =>
           { q with players_game_score := q.players_game_score + kaboRoundScore players q }))) := by
  constructor
  · intro hall hk hq huniq hdist
    have hck := check_kamikadze_finds players k hall hk hq huniq
    simp only [update_players_game_scores, hck]
    congr 1
    apply map_congr_mem
    intro q hqmem
    by_cases hpe : peqB q k = true
    · have hqk : q = k := hdist q hqmem hpe
      subst hqk
      simp [peqB_refl]
    · have hpe' : peqB q k = false := by
        cases hx : peqB q k
        · rfl
        · exact absurd hx hpe
      have hne : q ≠ k := fun e => hpe (e ▸ peqB_refl k)
      simp [hpe', hne]
  · intro hall hnone hcall
    have hck := check_kamikadze_none players hall hnone
    simp only [update_players_game_scores, hck]
    apply mapOption_eq_map
    intro q hqmem
    have hsc : get_players_score_in_round players q = some (kaboRoundScore players q) := by
      apply get_score_eval players q (hall q hqmem)
      by_cases hqc : q.called_kabo = false
      · exact Or.inl hqc
      · have hqc' : q.called_kabo = true := by
          cases hx : q.called_kabo
          · exact absurd hx hqc
          · rfl
        have hc := hcall q hqmem hqc'
        refine Or.inr ⟨?_, fun r hr hrq => ⟨hc.2 r hr hrq, hall r hr⟩⟩
        rcases Option.isSome_iff_exists.mp hc.1 with ⟨m, hm⟩
        exact ⟨m, hm⟩
    simp [hsc]

/-- C6 witness: the Kamikaze hand `[12, 12, 13, 13]` overrides the
scoring (holder +0, other +50), while without a Kamikaze hand the
Kabo-based scores are added (caller 0, opponent 10). -/
theorem kamikaze_scoring_witness :
    update_players_game_scores [kamikazePlayer, kamikazeOther]
      = some [kamikazePlayer, { kamikazeOther with players_game_score := 50 }]
  ∧ update_players_game_scores [scoreCaller, scoreOpp]
      = some [{ scoreCaller with players_game_score := 0 },
              { scoreOpp with players_game_score := 10 }] := by
  constructor
  · have h := (kamikaze_scoring [kamikazePlayer, kamikazeOther] kamikazePlayer).1
      (by decide) (by decide) (by decide) (by decide) (by decide)
    rw [h]
    decide
  · have h := (kamikaze_scoring [scoreCaller, scoreOpp] scoreCaller).2
      (by decide) (by decide) (by decide)
    rw [h]
    decide

/-- C8: the failed multi-exchange.  All attempted cards stay in the hand
at their positions but are turned publicly visible in place, the drawn
card is appended to the end of the hand, and when three or more cards
were attempted one further card is drawn face-down from the deck into
the hand (a no-op on an empty deck) — so the deck shrinks by one extra
card and the hand grows by two.  Nothing is discarded.  The final
conjunct links the behaviour to `keep_drawn_card`: an inconsistent
selection routes there with the kept drawn card. -/
theorem failed_multi_exchange_behaviour (st : EngineSt) (pidx : Nat)
    (drawn : Card) (attempted : List Card)
    (hb : pidx < st.players.length) :
    ((st.main_deck = [] ∨ attempted.length < 3) →
      (getPlayer (failed_multi_exchange st pidx drawn attempted) pidx).hand
        = setVisibleInHand (getPlayer st pidx).hand (attempted.map (fun c => c.id))
            ++ [some drawn]
      ∧ (failed_multi_exchange st pidx drawn attempted).main_deck = st.main_deck)
  ∧ (∀ pen deck1, st.main_deck = pen :: deck1 → 3 ≤ attempted.length →
      (getPlayer (failed_multi_exchange st pidx drawn attempted) pidx).hand
        = setVisibleInHand (getPlayer st pidx).hand (attempted.map (fun c => c.id))
            ++ [some drawn, some { pen with status := "HAND" }]
      ∧ (failed_multi_exchange st pidx drawn attempted).main_deck = deck1)
  ∧ (failed_multi_exchange st pidx drawn attempted).discard_pile = st.discard_pile
  ∧ (getPlayer (failed_multi_exchange st pidx drawn attempted) pidx).hand.length
      = (getPlayer st pidx).hand.length
        + (if 3 ≤ attempted.length ∧ st.main_deck ≠ [] then 2 else 1)
  ∧ (∀ (drawn0 : Card) (d : TurnDecisions),
      selectCards (getPlayer st pidx).hand d.exchange_sel = Except.ok attempted →
      check_card_list_consistency attempted = false →
      keep_drawn_card st pidx drawn0 d
        = Except.ok (failed_multi_exchange st pidx
            { drawn0 with
              status := "HAND", publicly_visible := false,
              known_to_owner := true } attempted)) := by
  have hb1 : pidx < (modifyPlayer st pidx (fun p =>
      { p with hand := setVisibleInHand p.hand (attempted.map (fun c => c.id)) })).players.length := by
    rw [players_modifyPlayer_length]
    exact hb
  have hb2 : pidx < (modifyPlayer (modifyPlayer st pidx (fun p =>
      { p with hand := setVisibleInHand p.hand (attempted.map (fun c => c.id)) })) pidx
      (fun p => { p with hand := p.hand ++ [some drawn] })).players.length := by
    rw [players_modifyPlayer_length]
    exact hb1
  have hhand1 : (getPlayer (modifyPlayer st pidx (fun p =>
      { p with hand := setVisibleInHand p.hand (attempted.map (fun c => c.id)) })) pidx).hand
      = setVisibleInHand (getPlayer st pidx).hand (attempted.map (fun c => c.id)) := by
    rw [getPlayer_modifyPlayer_self st pidx _ hb]
  have hhand2 : (getPlayer (modifyPlayer (modifyPlayer st pidx (fun p =>
      { p with hand := setVisibleInHand p.hand (attempted.map (fun c => c.id)) })) pidx
      (fun p => { p with hand := p.hand ++ [some drawn] })) pidx).hand
      = setVisibleInHand (getPlayer st pidx).hand (attempted.map (fun c => c.id))
          ++ [some drawn] := by
    rw [getPlayer_modifyPlayer_self _ pidx _ hb1, hhand1]
  have hA : (st.main_deck = [] ∨ attempted.length < 3) →
      failed_multi_exchange st pidx drawn attempted
        = modifyPlayer (modifyPlayer st pidx (fun p =>
            { p with hand := setVisibleInHand p.hand (attempted.map (fun c => c.id)) })) pidx
            (fun p => { p with hand := p.hand ++ [some drawn] }) := by
    intro hc
    by_cases h3 : 3 ≤ attempted.length
    · rcases hc with hdeck | hlen
      · simp only [failed_multi_exchange, if_pos h3, deck_modifyPlayer, hdeck]
      · omega
    · simp only [failed_multi_exchange, if_neg h3]
  have hB : ∀ pen deck1, st.main_deck = pen :: deck1 → 3 ≤ attempted.length →
      failed_multi_exchange st pidx drawn attempted
        = { modifyPlayer (modifyPlayer (modifyPlayer st pidx (fun p =>
              { p with hand := setVisibleInHand p.hand (attempted.map (fun c => c.id)) })) pidx
              (fun p => { p with hand := p.hand ++ [some drawn] })) pidx
              (fun p => { p with hand := p.hand ++ [some { pen with status := "HAND" }] }) with
            main_deck := deck1 } := by
    intro pen deck1 hdeck h3
    simp only [failed_multi_exchange, if_pos h3, deck_modifyPlayer, hdeck]
  have hBhand : ∀ pen deck1, st.main_deck = pen :: deck1 → 3 ≤ attempted.length →
      (getPlayer (failed_multi_exchange st pidx drawn attempted) pidx).hand
        = setVisibleInHand (getPlayer st pidx).hand (attempted.map (fun c => c.id))
            ++ [some drawn, some { pen with status := "HAND" }] := by
    intro pen deck1 hdeck h3
    rw [hB pen deck1 hdeck h3]
    rw [show getPlayer { modifyPlayer (modifyPlayer (modifyPlayer st pidx (fun p =>
          { p with hand := setVisibleInHand p.hand (attempted.map (fun c => c.id)) })) pidx
          (fun p => { p with hand := p.hand ++ [some drawn] })) pidx
          (fun p => { p with hand := p.hand ++ [some { pen with status := "HAND" }] }) with
          main_deck := deck1 } pidx
        = getPlayer (modifyPlayer (modifyPlayer (modifyPlayer st pidx (fun p =>
          { p with hand := setVisibleInHand p.hand (attempted.map (fun c => c.id)) })) pidx
          (fun p => { p with hand := p.hand ++ [some drawn] })) pidx
          (fun p => { p with hand := p.hand ++ [some { pen with status := "HAND" }] })) pidx
        from rfl]
    rw [getPlayer_modifyPlayer_self _ pidx _ hb2, hhand2, List.append_assoc]
    rfl
  refine ⟨?_, ?_, ?_, ?_, ?_⟩
  · intro hc
    rw [hA hc]
    exact ⟨hhand2, by simp only [deck_modifyPlayer]⟩
  · intro pen deck1 hdeck h3
    exact ⟨hBhand pen deck1 hdeck h3, by rw [hB pen deck1 hdeck h3]⟩
  · by_cases h3 : 3 ≤ attempted.length
    · cases hdeck : st.main_deck with
      | nil => rw [hA (Or.inl hdeck)]; simp only [pile_modifyPlayer]
      | cons pen deck1 => rw [hB pen deck1 hdeck h3]; simp only [pile_modifyPlayer]
    · rw [hA (Or.inr (by omega))]; simp only [pile_modifyPlayer]
  · by_cases hcase : 3 ≤ attempted.length ∧ st.main_deck ≠ []
    · obtain ⟨h3, hne⟩ := hcase
      cases hdeck : st.main_deck with
      | nil => exact absurd hdeck hne
      | cons pen deck1 =>
        rw [hBhand pen deck1 hdeck h3, List.length_append, length_setVisibleInHand]
        simp only [hdeck, h3]
        simp
    · have hsplit : st.main_deck = [] ∨ attempted.length < 3 := by
        by_cases h3 : 3 ≤ attempted.length
        · left
          by_contra hne
          exact hcase ⟨h3, hne⟩
        · right
          omega
      rw [hA hsplit]
      rw [getPlayer_modifyPlayer_self _ pidx _ hb1, hhand1]
      simp only [List.length_append, length_setVisibleInHand]
      rw [if_neg hcase]
      simp
  · intro drawn0 d hsel hcons
    simp only [keep_drawn_card, hsel, hcons, Bool.false_eq_true, if_false]

/-- C8 witness: three mismatched attempted cards on a two-card deck —
all three turn visible in place, the drawn card and one face-down
penalty card are appended (hand grows from 4 to 6), the deck shrinks by
the one extra card, and the discard pile is untouched. -/
theorem failed_multi_exchange_behaviour_witness :
    (getPlayer (failed_multi_exchange failedExchState 0 failedDrawn
        [mkC 5 1, mkC 6 2, mkC 7 3]) 0).hand
      = setVisibleInHand (getPlayer failedExchState 0).hand
          ([mkC 5 1, mkC 6 2, mkC 7 3].map (fun c => c.id))
          ++ [some failedDrawn, some { mkC 4 40 with status := "HAND" }]
  ∧ (failed_multi_exchange failedExchState 0 failedDrawn
        [mkC 5 1, mkC 6 2, mkC 7 3]).main_deck = [mkC 6 41]
  ∧ (failed_multi_exchange failedExchState 0 failedDrawn
        [mkC 5 1, mkC 6 2, mkC 7 3]).discard_pile = failedExchState.discard_pile
  ∧ (getPlayer (failed_multi_exchange failedExchState 0 failedDrawn
        [mkC 5 1, mkC 6 2, mkC 7 3]) 0).hand.length = 6 := by
  have h := failed_multi_exchange_behaviour failedExchState 0 failedDrawn
    [mkC 5 1, mkC 6 2, mkC 7 3] (by decide)
  have hb := h.2.1 (mkC 4 40) [mkC 6 41] rfl (by decide)
  refine ⟨hb.1, hb.2, h.2.2.1, ?_⟩
  rw [h.2.2.2.1]
  decide

theorem playLoop_active_count (ds : List TurnDecisions) :
    ∀ (st : EngineSt) (t c : Nat) (st' : EngineSt) (n : Nat),
      playLoop st t c true ds = Except.ok (st', n) →
      c ≤ ds.length →
      n ≤ c ∧ (n = c ∨ st'.main_deck = []) := by
  induction ds with
  | nil =>
    intro st t c st' n hok hlen
    simp only [playLoop, Except.ok.injEq, Prod.mk.injEq] at hok
    obtain ⟨h1, h2⟩ := hok
    subst h1
    subst h2
    simp only [List.length_nil, Nat.le_zero] at hlen
    omega
  | cons d rest ih =>
    intro st t c st' n hok hlen
    by_cases hdeck : st.main_deck.isEmpty = true
    · simp only [playLoop, hdeck, if_true, Except.ok.injEq, Prod.mk.injEq] at hok
      obtain ⟨h1, h2⟩ := hok
      subst h1
      subst h2
      exact ⟨Nat.zero_le c, Or.inr (List.isEmpty_iff.mp hdeck)⟩
    · by_cases hc : c = 0
      · simp only [playLoop, hdeck, Bool.false_eq_true, if_false, hc, beq_self_eq_true,
          if_true, Except.ok.injEq, Prod.mk.injEq] at hok
        obtain ⟨h1, h2⟩ := hok
        subst h1
        subst h2
        exact ⟨by omega, Or.inl (by omega)⟩
      · have hc' : (c == 0) = false := by simpa using hc
        simp only [playLoop, hdeck, Bool.false_eq_true, if_false, hc'] at hok
        cases hpt : perform_turn st (t % st.players.length) d with
        | error e =>
          rw [hpt] at hok
          simp at hok
        | ok pair =>
          obtain ⟨st1, b⟩ := pair
          rw [hpt] at hok
          simp only [Bool.true_or, if_true] at hok
          cases hrec : playLoop (if b then { st1 with kabo_called := true } else st1)
              (t + 1) (c - 1) true rest with
          | error e =>
            rw [hrec] at hok
            simp at hok
          | ok pr =>
            obtain ⟨stF, m⟩ := pr
            rw [hrec] at hok
            simp only [Except.ok.injEq, Prod.mk.injEq] at hok
            obtain ⟨h1, h2⟩ := hok
            subst h1
            have hm := ih _ (t + 1) (c - 1) stF m hrec
              (by simp only [List.length_cons] at hlen; omega)
            subst h2
            rcases hm.2 with he | hd
            · exact ⟨by omega, Or.inl (by omega)⟩
            · exact ⟨by omega, Or.inr hd⟩

/-- C4: the Kabo countdown.  Once a turn successfully calls Kabo (in a
round of `N` players the loop counter stands at `N` until then), the run
completes at most `N - 1` further turns — no turn begins after the
countdown reaches zero — and exactly `N - 1` of them unless the loop
stopped because the main deck became empty; the round then leaves the
playing loop and proceeds to scoring: `start_playing` returns the loop's
final state together with the round scores and game-score update
computed from it. -/
theorem kabo_countdown (st : EngineSt) (t : Nat) (d : TurnDecisions)
    (ds : List TurnDecisions) (st1 : EngineSt) (stF : EngineSt) (n : Nat)
    (hN : st.players.length ≠ 0)
    (hdeck : st.main_deck.isEmpty = false)
    (hcall : perform_turn st (t % st.players.length) d = Except.ok (st1, true))
    (hds : st.players.length - 1 ≤ ds.length)
    (hrun : playLoop st t st.players.length false (d :: ds) = Except.ok (stF, n)) :
    1 ≤ n ∧ n - 1 ≤ st.players.length - 1
      ∧ (n - 1 = st.players.length - 1 ∨ stF.main_deck = [])
      ∧ (t = 0 → start_playing st (d :: ds)
          = Except.ok (stF, n,
              stF.players.map (fun p => (p.name, get_players_score_in_round stF.players p)),
              update_players_game_scores stF.players)) := by
  have hseq : t = 0 → start_playing st (d :: ds)
      = Except.ok (stF, n,
          stF.players.map (fun p => (p.name, get_players_score_in_round stF.players p)),
          update_players_game_scores stF.players) := by
    intro ht
    subst ht
    simp only [start_playing, hrun]
  have hc0 : (st.players.length == 0) = false := by simpa using hN
  simp only [playLoop, hdeck, hc0, Bool.false_eq_true, if_false, hcall, Bool.or_true,
    if_true] at hrun
  cases hrec : playLoop { st1 with kabo_called := true } (t + 1)
      (st.players.length - 1) true ds with
  | error e =>
    rw [hrec] at hrun
    simp at hrun
  | ok pr =>
    obtain ⟨stF', m⟩ := pr
    rw [hrec] at hrun
    simp only [Except.ok.injEq, Prod.mk.injEq] at hrun
    obtain ⟨h1, h2⟩ := hrun
    subst h1
    have hm := playLoop_active_count ds _ (t + 1) (st.players.length - 1) stF' m hrec hds
    subst h2
    rcases hm.2 with he | hd
    · exact ⟨by omega, by omega, Or.inl (by omega), hseq⟩
    · exact ⟨by omega, by omega, Or.inr hd, hseq⟩

/-- C4 witness: in a two-player round the first player calls Kabo and
exactly one further turn is completed before the loop stops; the round
then proceeds to scoring. -/
theorem kabo_countdown_witness :
    1 ≤ (runOf (playLoop kaboRunState 0 2 false [kaboCallDecision, baseDecision])).2
  ∧ (runOf (playLoop kaboRunState 0 2 false [kaboCallDecision, baseDecision])).2 - 1 ≤ 1
  ∧ ((runOf (playLoop kaboRunState 0 2 false [kaboCallDecision, baseDecision])).2 - 1 = 1
      ∨ (runOf (playLoop kaboRunState 0 2 false [kaboCallDecision, baseDecision])).1.main_deck
          = [])
  ∧ (start_playing kaboRunState [kaboCallDecision, baseDecision]).isOk = true := by
  have h := kabo_countdown kaboRunState 0 kaboCallDecision [baseDecision]
    (stOf (perform_turn kaboRunState 0 kaboCallDecision)).1
    (runOf (playLoop kaboRunState 0 2 false [kaboCallDecision, baseDecision])).1
    (runOf (playLoop kaboRunState 0 2 false [kaboCallDecision, baseDecision])).2
    (by decide) (by decide) (by rfl) (by decide) (by rfl)
  exact ⟨h.1, h.2.1, h.2.2.1, by rw [h.2.2.2 rfl]; rfl⟩

/-- C7: card conservation.  The standard card set has 52 cards; after
dealing a round with `N` players the discard pile holds exactly one card
and the main deck `52 - 4N - 1` cards, each player holds 4; and at every
observation point between turns of the playing loop — the final state of
any scripted run whose decisions respect the interface contract — the
number of cards in the deck, all hands (holes not counted) and the
discard pile still sums to 52. -/
theorem card_conservation (cards : List Card) (players : List PlayerSt)
    (s : Nat) (st0 : EngineSt)
    (h52 : cards.length = 52)
    (hN : 0 < players.length)
    (hinit : round_init cards players s = Except.ok st0) :
    CARDS.length = 52
    ∧ st0.main_deck.length = 52 - (4 * players.length + 1)
    ∧ st0.discard_pile.length = 1
    ∧ cardCount st0 = 52
    ∧ (∀ q ∈ st0.players, handCount q.hand = 4)
    ∧ (∀ ds st' n, decisions_ok st0 0 ds = true →
        playLoop st0 0 st0.players.length false ds = Except.ok (st', n) →
        cardCount st' = 52) := by
  have hi := round_init_ok cards players s st0 hinit
  refine ⟨by rfl, ?_, hi.2.1, ?_, hi.2.2.2.2, ?_⟩
  · have h1 := hi.1
    omega
  · have h1 := hi.2.2.1
    omega
  · intro ds st' n hds hloop
    have hNN : 0 < st0.players.length := by
      rw [hi.2.2.2.1]
      exact hN
    have hc := playLoop_conserves ds st0 0 st0.players.length false st' n hds hNN hloop
    rw [hc.1, hi.2.2.1, h52]

/-- C7 witness: a fresh two-player round dealt from the standard 52-card
set, then one contract-respecting turn (deck draw, discard): the counts
are as claimed and the total stays 52. -/
theorem card_conservation_witness :
    (getOk (round_init CARDS witnessPlayers 0)).main_deck.length = 52 - (4 * 2 + 1)
  ∧ (getOk (round_init CARDS witnessPlayers 0)).discard_pile.length = 1
  ∧ cardCount (getOk (round_init CARDS witnessPlayers 0)) = 52
  ∧ cardCount (runOf (playLoop (getOk (round_init CARDS witnessPlayers 0)) 0
      (getOk (round_init CARDS witnessPlayers 0)).players.length false [baseDecision])).1
      = 52 := by
  have h := card_conservation CARDS witnessPlayers 0
    (getOk (round_init CARDS witnessPlayers 0)) (by rfl) (by decide) (by rfl)
  refine ⟨h.2.1, h.2.2.1, h.2.2.2.1, ?_⟩
  exact h.2.2.2.2.2 [baseDecision]
    (runOf (playLoop (getOk (round_init CARDS witnessPlayers 0)) 0
      (getOk (round_init CARDS witnessPlayers 0)).players.length false [baseDecision])).1
    (runOf (playLoop (getOk (round_init CARDS witnessPlayers 0)) 0
      (getOk (round_init CARDS witnessPlayers 0)).players.length false [baseDecision])).2
    (by decide) (by rfl)

end Kabo
